import Mathlib

/-!
# SimpleSQL: the query executor of `execute.c`

A shallow embedding of `src/execute.c` and a verification of the properties
stated for it.

Conventions of the embedding.

* A C string is the list of its characters before the terminating NUL
  (`CStr`).
* C `int` values are `Int`; where the source does arithmetic that can leave
  the 32-bit range the result is wrapped explicitly (`wrap32`).
* C `double` values are modelled by `Rat`: every finite double is a rational
  and the six comparisons on finite doubles are the comparisons of those
  rationals. Text is converted exactly (`atof`), which is the C conversion
  wherever the decimal value of the text is a double.
* A function that can stop the process (`panic`, `assert`) or step outside
  the memory it was given returns `Option`; `none` is "does not complete".
* The tabular container (`resultset.h`), the plan (`ast.h`), the catalog
  (`database.h`) and `util.h` are not part of `execute.c`; what the executor
  needs of them is modelled from the specification and marked as such.
-/

namespace SimpleSQL

/-! ## C strings and the C library -/

/-- The characters of a NUL-terminated C string, terminator excluded. -/
abbrev CStr := List Char

/-- C `strcmp`: negative, zero or positive as the first string is below, equal to or
above the second in byte-wise lexicographic order. -/
def strcmp : CStr → CStr → Int
  | [], [] => 0
  | [], _ :: _ => -1
  | _ :: _, [] => 1
  | a :: as, b :: bs => if a = b then strcmp as bs else (a.toNat : Int) - (b.toNat : Int)

/-- C `strcasecmp`: `strcmp` after mapping every byte through `tolower`. -/
def strcasecmp : CStr → CStr → Int
  | [], [] => 0
  | [], _ :: _ => -1
  | _ :: _, [] => 1
  | a :: as, b :: bs =>
    if a.toLower = b.toLower then strcasecmp as bs
    else (a.toLower.toNat : Int) - (b.toLower.toNat : Int)

/-- Modelled from the spec: `icmpStrings` of the absent `util.h`, the case-insensitive
string comparison the resolver uses ("comparing names case-insensitively"). -/
def icmpStrings (a b : CStr) : Int := strcasecmp a b

/-- Reduce an integer to the range of a 32-bit two's complement `int`. -/
def wrap32 (n : Int) : Int := (n + 2147483648) % 4294967296 - 2147483648

/-- C `isspace` in the "C" locale. -/
def isspace (c : Char) : Bool :=
  c = ' ' || c = '\t' || c = '\n' || c = '\r' || c.toNat = 11 || c.toNat = 12

/-- The value of a run of decimal digits continuing the accumulator `acc`, and
the characters that follow the run. -/
def scanDigits : Nat → CStr → Nat × CStr
  | acc, [] => (acc, [])
  | acc, c :: cs =>
    if c.isDigit then scanDigits (acc * 10 + (c.toNat - 48)) cs else (acc, c :: cs)

/-- The value of a run of decimal digits after a decimal point: numerator
and power of ten. -/
def scanFraction : Nat → Nat → CStr → Nat × Nat
  | num, den, [] => (num, den)
  | num, den, c :: cs =>
    if c.isDigit then scanFraction (num * 10 + (c.toNat - 48)) (den * 10) cs else (num, den)

/-- The sign in front of a numeral and the characters after it. -/
def scanSign : CStr → Bool × CStr
  | '-' :: cs => (true, cs)
  | '+' :: cs => (false, cs)
  | cs => (false, cs)

/-- C `atoi`: leading white space, an optional sign, then the longest run of
decimal digits; the value is reduced to the `int` range. -/
def atoi (s : CStr) : Int :=
  let (neg, rest) := scanSign (s.dropWhile isspace)
  let (n, _) := scanDigits 0 rest
  wrap32 (if neg then -(n : Int) else (n : Int))

/-- C `atof` on plain decimal notation: leading white space, an optional sign,
digits, and an optional point followed by digits; the longest such prefix is
converted and the rest ignored. The value is the exact decimal value. That is
what the C function returns when the text is plain decimal notation
(`IsDecimalText`) and its value is a `double` (`IsDoubleValue`), as for the
base-10 text of an integer of magnitude at most `2 ^ 53`. Where the C function
rounds to the nearest `double`, or reads an exponent, hexadecimal notation or
an infinity, it differs from this function; the statements about comparisons
of reals take their literal inside the exact domain. -/
def atof (s : CStr) : Rat :=
  let (neg, rest) := scanSign (s.dropWhile isspace)
  let (n, rest2) := scanDigits 0 rest
  let q : Rat :=
    match rest2 with
    | '.' :: frac =>
      let (num, den) := scanFraction 0 1 frac
      mkRat ((n * den + num : Nat) : Int) den
    | _ => (n : Rat)
  if neg then -q else q

/-- Conversion of a `double` to `int` (`int x = d;`): the fraction is discarded,
rounding toward zero; the result is reduced to the `int` range. -/
def doubleToInt (q : Rat) : Int := wrap32 (Int.tdiv q.num (q.den : Int))

/-! ## The tabular container (`resultset.h`) -/

/-- A value held by the container: one of the three column types. -/
inductive RSValue where
  | int (v : Int)
  | real (v : Rat)
  | str (s : CStr)
  deriving DecidableEq, Repr

/-- Column type codes of the catalog, as `read_dataset` tests them. -/
def COL_TYPE_INT : Int := 1
/-- Column type code of REAL columns. -/
def COL_TYPE_REAL : Int := 2
/-- Column type code of STRING columns. -/
def COL_TYPE_STRING : Int := 3

/-- Modelled from the spec: the "no function" tag of the absent `ast.h`. -/
def NO_FUNCTION : Int := -1

/-- One column of the working table (`struct RSColumn`): the fields
`execute.c` reads (`tableName`, `coltype`, the position in the list) and
the column's values, one per row. -/
structure RSColumn where
  tableName : CStr
  colName : CStr
  function : Int
  coltype : Int
  data : List RSValue
  deriving DecidableEq, Repr

/-- The working table (`struct ResultSet`): the list of live columns
(`rs->columns`, position = 1 + index) and the number of rows. -/
structure ResultSet where
  columns : List RSColumn
  numRows : Nat
  deriving DecidableEq, Repr

/-- The number of live columns, `rs->numCols`. -/
def ResultSet.numCols (rs : ResultSet) : Nat := rs.columns.length

/-- The value a fresh cell holds in a column of the given type. -/
def defaultValue (coltype : Int) : RSValue :=
  if coltype = COL_TYPE_INT then RSValue.int 0
  else if coltype = COL_TYPE_REAL then RSValue.real 0
  else RSValue.str []

/-- Modelled from the spec: `resultset_create` of the absent container,
"create empty". -/
def resultset_create : ResultSet := { columns := [], numRows := 0 }

/-- Modelled from the spec: `resultset_insertColumn` of the absent container,
"insert column at position with (table, name, function, type)". The position
is one of `1 .. numCols + 1`; the new column holds a fresh cell per existing
row. Returns the table and the position. -/
def resultset_insertColumn (rs : ResultSet) (pos : Int) (table name : CStr)
    (func coltype : Int) : Option (ResultSet × Int) :=
  if 1 ≤ pos ∧ pos ≤ (rs.numCols : Int) + 1 then
    let col : RSColumn :=
      { tableName := table, colName := name, function := func, coltype := coltype,
        data := List.replicate rs.numRows (defaultValue coltype) }
    some ({ rs with columns := rs.columns.insertIdx (pos - 1).toNat col }, pos)
  else none

/-- Modelled from the spec: `resultset_addRow` of the absent container,
"add row (returns new row's ordinal)": a fresh cell at the end of every
column. -/
def resultset_addRow (rs : ResultSet) : ResultSet × Int :=
  ({ columns := rs.columns.map fun c => { c with data := c.data ++ [defaultValue c.coltype] },
     numRows := rs.numRows + 1 },
   (rs.numRows : Int) + 1)

/-- The column at a 1-based position, if the position is live. -/
def columnAt (rs : ResultSet) (col : Int) : Option RSColumn :=
  if 1 ≤ col then rs.columns.get? (col - 1).toNat else none

/-- The cell at a 1-based (row, column), if both are live. -/
def cellAt (rs : ResultSet) (row col : Int) : Option RSValue :=
  if 1 ≤ row ∧ row ≤ (rs.numRows : Int) then
    (columnAt rs col).bind fun c => c.data.get? (row - 1).toNat
  else none

/-- Store a value in the cell at a live (row, column) whose column has the
given type. -/
def putCell (rs : ResultSet) (row col : Int) (coltype : Int) (v : RSValue) :
    Option ResultSet :=
  if 1 ≤ row ∧ row ≤ (rs.numRows : Int) then
    match columnAt rs col with
    | some c =>
      if c.coltype = coltype then
        some { rs with columns :=
          rs.columns.set (col - 1).toNat { c with data := c.data.set (row - 1).toNat v } }
      else none
    | none => none
  else none

/-- Modelled from the spec: `resultset_putInt` of the absent container,
"put typed value at (row, column)" for INTEGER. -/
def resultset_putInt (rs : ResultSet) (row col : Int) (v : Int) : Option ResultSet :=
  putCell rs row col COL_TYPE_INT (RSValue.int v)

/-- Modelled from the spec: `resultset_putReal` of the absent container. -/
def resultset_putReal (rs : ResultSet) (row col : Int) (v : Rat) : Option ResultSet :=
  putCell rs row col COL_TYPE_REAL (RSValue.real v)

/-- Modelled from the spec: `resultset_putString` of the absent container. -/
def resultset_putString (rs : ResultSet) (row col : Int) (v : CStr) : Option ResultSet :=
  putCell rs row col COL_TYPE_STRING (RSValue.str v)

/-- Modelled from the spec: `resultset_getInt` of the absent container,
"get typed value at (row, column)" for INTEGER: defined on a live cell that
holds an integer. -/
def resultset_getInt (rs : ResultSet) (row col : Int) : Option Int :=
  match cellAt rs row col with
  | some (RSValue.int v) => some v
  | _ => none

/-- Modelled from the spec: `resultset_getReal` of the absent container. -/
def resultset_getReal (rs : ResultSet) (row col : Int) : Option Rat :=
  match cellAt rs row col with
  | some (RSValue.real v) => some v
  | _ => none

/-- Modelled from the spec: `resultset_getString` of the absent container
(the caller receives a copy). -/
def resultset_getString (rs : ResultSet) (row col : Int) : Option CStr :=
  match cellAt rs row col with
  | some (RSValue.str v) => some v
  | _ => none

/-- The position of the first column at 1-based position `pos` or later, in
the list `cols` whose head has position `pos`, that carries the given table
and column name ignoring case; `-1` when there is none. -/
def findColumnFrom (table name : CStr) : List RSColumn → Int → Int
  | [], _ => -1
  | c :: cs, pos =>
    if strcasecmp c.tableName table = 0 ∧ strcasecmp c.colName name = 0 then pos
    else findColumnFrom table name cs (pos + 1)

/-- Modelled from the spec: `resultset_findColumn` of the absent container,
"find column ordinal by (table, name)", names compared ignoring case, the
search starting at `startPos`; `-1` when no column matches. -/
def resultset_findColumn (rs : ResultSet) (startPos : Int) (table name : CStr) : Int :=
  if 1 ≤ startPos then
    findColumnFrom table name (rs.columns.drop (startPos - 1).toNat) startPos
  else -1

/-- The table without the row of 0-based index `k`: the cell is taken out of
every column. -/
def ResultSet.eraseRow (rs : ResultSet) (k : Nat) : ResultSet :=
  { columns := rs.columns.map fun c => { c with data := c.data.eraseIdx k },
    numRows := rs.numRows - 1 }

/-- Modelled from the spec: `resultset_deleteRow` of the absent container,
"delete row by ordinal": the ordinal is one of `1 .. numRows`; the later rows
move up by one. -/
def resultset_deleteRow (rs : ResultSet) (row : Int) : Option ResultSet :=
  if 1 ≤ row ∧ row ≤ (rs.numRows : Int) then some (rs.eraseRow (row - 1).toNat)
  else none

/-- Modelled from the spec: `resultset_deleteColumn` of the absent container,
"delete column by ordinal": the ordinal is one of `1 .. numCols`; the later
columns move up by one. -/
def resultset_deleteColumn (rs : ResultSet) (pos : Int) : Option ResultSet :=
  if 1 ≤ pos ∧ pos ≤ (rs.numCols : Int) then
    some { rs with columns := rs.columns.eraseIdx (pos - 1).toNat }
  else none

/-- Modelled from the spec: `resultset_moveColumn` of the absent container,
"move column to new ordinal (renumbering others)": both ordinals are among
`1 .. numCols`; the column is taken out and put back at the new ordinal, the
other columns keeping their relative order. -/
def resultset_moveColumn (rs : ResultSet) (fromPos toPos : Int) : Option ResultSet :=
  if 1 ≤ fromPos ∧ fromPos ≤ (rs.numCols : Int) ∧ 1 ≤ toPos ∧ toPos ≤ (rs.numCols : Int) then
    match rs.columns.get? (fromPos - 1).toNat with
    | some c =>
      some { rs with columns :=
        (rs.columns.eraseIdx (fromPos - 1).toNat).insertIdx (toPos - 1).toNat c }
    | none => none
  else none

/-! ## The catalog (`database.h`) and the plan (`ast.h`) -/

/-- Modelled from the spec: a column of the catalog, "name, declared type". -/
structure ColumnMeta where
  name : CStr
  colType : Int
  deriving DecidableEq, Repr

/-- Modelled from the spec: the metadata of a table: name, columns in catalog
order (`numColumns` is their number) and the fixed record length. -/
structure TableMeta where
  name : CStr
  columns : List ColumnMeta
  recordSize : Int
  deriving DecidableEq, Repr

/-- The number of columns of a table, `tablemeta->numColumns`. -/
def TableMeta.numColumns (tm : TableMeta) : Nat := tm.columns.length

/-- Modelled from the spec: the database: its name and its tables in order. -/
structure Database where
  name : CStr
  tables : List TableMeta
  deriving DecidableEq, Repr

/-- Modelled from the spec: a requested column of the plan: name and
function tag. -/
structure COLUMN where
  name : CStr
  function : Int
  deriving DecidableEq, Repr

/-- Modelled from the spec: the WHERE predicate of the plan: column name
(`expr->column->name`), operator tag, literal kind and literal text. -/
structure EXPR where
  column : CStr
  operator : Int
  litType : Int
  value : CStr
  deriving DecidableEq, Repr

/-- Modelled from the spec: the LIMIT clause of the plan. -/
structure LIMIT where
  N : Int
  deriving DecidableEq, Repr

/-- Modelled from the spec: a SELECT plan: table name, requested columns in
order, optional WHERE predicate (`select->where->expr`), optional limit. -/
structure SELECT where
  table : CStr
  columns : List COLUMN
  «where» : Option EXPR
  limit : Option LIMIT
  deriving DecidableEq, Repr

/-- Modelled from the spec: a query plan: its kind and, for a SELECT, the
plan (`query->q.select`). -/
structure QUERY where
  queryType : Int
  select : SELECT
  deriving DecidableEq, Repr

/-- Modelled from the spec: the query kind SELECT of the absent `ast.h`. -/
def SELECT_QUERY : Int := 0

/-- Literal kind INTEGER, the `0` that `check_where` tests. -/
def INTEGER_LITERAL : Int := 0
/-- Modelled from the spec: the literal kind STRING of the absent `ast.h`, the
third of the kinds INTEGER, REAL, STRING. -/
def STRING_LITERAL : Int := 2

/-! ## The pipeline stages of `execute.c` -/

/-- A C loop `for (int i = hi; i >= lo; i--) body`, given the number of
iterations `hi - lo + 1`: the body runs at `lo + k` for `k` from the count
minus one down to zero, and the loop stops when the body does not complete. -/
def loopDown (body : ResultSet → Int → Option ResultSet) (lo : Int) :
    Nat → ResultSet → Option ResultSet
  | 0, rs => some rs
  | k + 1, rs => (body rs (lo + (k : Int))).bind (loopDown body lo k)

/-- The function `ints_filter_where`: delete row `i` when its integer value
stands in the relation of the `case` to the literal. -/
def ints_filter_where (rs : ResultSet) (where_expr : EXPR) (where_col_index i : Int) :
    Option ResultSet :=
  match resultset_getInt rs i where_col_index with
  | none => none
  | some row_val =>
    let where_val : Int := doubleToInt (atof where_expr.value)
    if where_expr.operator = 0 then
      if row_val ≥ where_val then resultset_deleteRow rs i else some rs
    else if where_expr.operator = 1 then
      if row_val > where_val then resultset_deleteRow rs i else some rs
    else if where_expr.operator = 2 then
      if row_val ≤ where_val then resultset_deleteRow rs i else some rs
    else if where_expr.operator = 3 then
      if row_val < where_val then resultset_deleteRow rs i else some rs
    else if where_expr.operator = 4 then
      if row_val ≠ where_val then resultset_deleteRow rs i else some rs
    else if where_expr.operator = 5 then
      if row_val = where_val then resultset_deleteRow rs i else some rs
    else some rs

/-- The function `filter_reals_where`: the same switch on `double` values. -/
def filter_reals_where (rs : ResultSet) (where_expr : EXPR) (where_col_index i : Int) :
    Option ResultSet :=
  match resultset_getReal rs i where_col_index with
  | none => none
  | some row_val =>
    let where_val : Rat := atof where_expr.value
    if where_expr.operator = 0 then
      if row_val ≥ where_val then resultset_deleteRow rs i else some rs
    else if where_expr.operator = 1 then
      if row_val > where_val then resultset_deleteRow rs i else some rs
    else if where_expr.operator = 2 then
      if row_val ≤ where_val then resultset_deleteRow rs i else some rs
    else if where_expr.operator = 3 then
      if row_val < where_val then resultset_deleteRow rs i else some rs
    else if where_expr.operator = 4 then
      if row_val ≠ where_val then resultset_deleteRow rs i else some rs
    else if where_expr.operator = 5 then
      if row_val = where_val then resultset_deleteRow rs i else some rs
    else some rs

/-- The function `strings_filter_where`: the same switch on the result of
`strcmp`. -/
def strings_filter_where (rs : ResultSet) (where_expr : EXPR) (where_col_index i : Int) :
    Option ResultSet :=
  match resultset_getString rs i where_col_index with
  | none => none
  | some row_val =>
    let where_val : CStr := where_expr.value
    let comp : Int := strcmp row_val where_val
    if where_expr.operator = 0 then
      if comp > 0 ∨ comp = 0 then resultset_deleteRow rs i else some rs
    else if where_expr.operator = 1 then
      if comp > 0 then resultset_deleteRow rs i else some rs
    else if where_expr.operator = 2 then
      if comp < 0 ∨ comp = 0 then resultset_deleteRow rs i else some rs
    else if where_expr.operator = 3 then
      if comp < 0 then resultset_deleteRow rs i else some rs
    else if where_expr.operator = 4 then
      if comp ≠ 0 then resultset_deleteRow rs i else some rs
    else if where_expr.operator = 5 then
      if comp = 0 then resultset_deleteRow rs i else some rs
    else some rs

/-- The first loop of `check_where`: the type of the column whose position is
`where_col_index`, counting from `i` at the head of `cur`; `-1` when the
list ends first. -/
def colTypeAt (where_col_index : Int) : List RSColumn → Int → Int
  | [], _ => -1
  | cur :: next, i =>
    if where_col_index = i then cur.coltype else colTypeAt where_col_index next (i + 1)

/-- The body of the row loop of `check_where` at row `i`. -/
def whereBody (where_expr : EXPR) (where_col_index curColType : Int)
    (rs : ResultSet) (i : Int) : Option ResultSet :=
  let lit_type := where_expr.litType
  if lit_type = 0 ∧ curColType = 1 then
    ints_filter_where rs where_expr where_col_index i
  else if lit_type = 1 ∨ (lit_type = 0 ∧ curColType = 2) then
    filter_reals_where rs where_expr where_col_index i
  else if where_expr.litType = STRING_LITERAL then
    strings_filter_where rs where_expr where_col_index i
  else some rs

/-- The function `check_where`: with a WHERE clause, find the column and its
type, then visit the rows from the last to the first. -/
def check_where (select : SELECT) (rs : ResultSet) : Option ResultSet :=
  match select.«where» with
  | none => some rs
  | some where_expr =>
    let where_col_index := resultset_findColumn rs 1 select.table where_expr.column
    let curColType := colTypeAt where_col_index rs.columns 1
    loopDown (whereBody where_expr where_col_index curColType) 1 rs.numRows rs

/-- The inner loop of `filter_col`: whether a catalog name occurs, ignoring
case, in the requested list. -/
def in_ast (name : CStr) (cols : List COLUMN) : Bool :=
  cols.any fun cur => strcasecmp name cur.name = 0

/-- The outer loop of `filter_col` over the catalog columns still to visit. -/
def filter_col_loop (tablemeta : TableMeta) (select : SELECT) :
    List ColumnMeta → ResultSet → Option ResultSet
  | [], rs => some rs
  | colmeta :: rest, rs =>
    if in_ast colmeta.name select.columns then filter_col_loop tablemeta select rest rs
    else
      let col_Pos := resultset_findColumn rs 1 tablemeta.name colmeta.name
      (resultset_deleteColumn rs col_Pos).bind (filter_col_loop tablemeta select rest)

/-- The function `filter_col`: delete every catalog column that the plan does
not request. -/
def filter_col (tablemeta : TableMeta) (select : SELECT) (rs : ResultSet) :
    Option ResultSet :=
  filter_col_loop tablemeta select tablemeta.columns rs

/-- The loop of `reorder_col` from requested entry number `i` on. The table
name is read from the first live column, `rs->columns->tableName`. -/
def reorder_col_loop : List COLUMN → Int → ResultSet → Option ResultSet
  | [], _, rs => some rs
  | cur :: next, i, rs =>
    match rs.columns with
    | [] => none
    | first :: _ =>
      let col_index := resultset_findColumn rs 1 first.tableName cur.name
      (resultset_moveColumn rs col_index i).bind (reorder_col_loop next (i + 1))

/-- The function `reorder_col`: move the requested columns, in plan order, to
positions 1, 2, 3, ... -/
def reorder_col (select : SELECT) (rs : ResultSet) : Option ResultSet :=
  reorder_col_loop select.columns 1 rs

/-- The loop of `app_func` from requested entry number `i` on; the container's
`resultset_applyFunction` is a parameter. -/
def app_func_loop (applyFunction : ResultSet → Int → Int → Option ResultSet) :
    List COLUMN → Int → ResultSet → Option ResultSet
  | [], _, rs => some rs
  | cur :: next, i, rs =>
    if cur.function ≠ NO_FUNCTION then
      (applyFunction rs cur.function i).bind (app_func_loop applyFunction next (i + 1))
    else app_func_loop applyFunction next (i + 1) rs

/-- The function `app_func`: apply the tagged functions left to right. -/
def app_func (applyFunction : ResultSet → Int → Int → Option ResultSet)
    (select : SELECT) (rs : ResultSet) : Option ResultSet :=
  app_func_loop applyFunction select.columns 1 rs

/-- The function `check_lim`: with a limit, delete the rows from the last down
to `N + 1`. -/
def check_lim (limit : Option LIMIT) (rs : ResultSet) : Option ResultSet :=
  match limit with
  | none => some rs
  | some l =>
    let rowNums : Int := rs.numRows
    let lo : Int := wrap32 (l.N + 1)
    loopDown resultset_deleteRow lo (rowNums - lo + 1).toNat rs

/-! ## The record decoder and the orchestrator of `execute.c` -/

/-- The NUL character that terminates a C string. -/
def NUL : Char := Char.ofNat 0

/-- The loop `while (*end != stop) end++;` started at position `pos`, where
`cs` is the buffer from `pos` on: the position of the first `stop`. Running
off the buffer does not complete. -/
def scanFor (stop : Char) : List Char → Nat → Option Nat
  | [], _ => none
  | c :: cs, pos => if c = stop then some pos else scanFor stop cs (pos + 1)

/-- The C string that starts at offset `cp` of the buffer: the characters up
to the first NUL. -/
def cstringAt (buf : List Char) (cp : Nat) : CStr :=
  (buf.drop cp).takeWhile fun c => c ≠ NUL

/-- The state of `read_dataset` between two fields: the working table, the
buffer (which the decoder overwrites with terminators) and the two
cursors `cp` and `end`. -/
structure DecodeState where
  rs : ResultSet
  buf : List Char
  cp : Nat
  end_ : Nat
  deriving DecidableEq, Repr

/-- The body of the loop of `read_dataset` for the column with 0-based index
`i` and type `col_type`. -/
def decodeField (rowPos : Int) (i : Nat) (col_type : Int) (st : DecodeState) :
    Option DecodeState :=
  if col_type = 1 then
    match scanFor ' ' (st.buf.drop st.end_) st.end_ with
    | none => none
    | some e =>
      let buf := st.buf.set e NUL
      let val := atoi (cstringAt buf st.cp)
      match resultset_putInt st.rs rowPos ((i : Int) + 1) val with
      | none => none
      | some rs => some { rs := rs, buf := buf, cp := e + 1, end_ := e + 1 }
  else if col_type = 2 then
    match scanFor NUL (st.buf.drop st.end_) st.end_ with
    | none => none
    | some e =>
      let buf := st.buf.set e NUL
      let val := atof (cstringAt buf st.cp)
      match resultset_putReal st.rs rowPos ((i : Int) + 1) val with
      | none => none
      | some rs => some { rs := rs, buf := buf, cp := e + 1, end_ := e + 1 }
  else if col_type = 3 then
    match st.buf.get? st.end_ with
    | none => none
    | some ch =>
      let cursors : Option (Nat × Nat) :=
        if ch = '"' then
          (scanFor '"' (st.buf.drop (st.end_ + 1)) (st.end_ + 1)).map fun e => (st.end_ + 1, e)
        else if ch = '\'' then
          (scanFor '\'' (st.buf.drop (st.end_ + 1)) (st.end_ + 1)).map fun e => (st.end_ + 1, e)
        else some (st.cp, st.end_)
      match cursors with
      | none => none
      | some (cp, e) =>
        let buf := st.buf.set e NUL
        match resultset_putString st.rs rowPos ((i : Int) + 1) (cstringAt buf cp) with
        | none => none
        | some rs => some { rs := rs, buf := buf, cp := e + 2, end_ := e + 2 }
  else some st

/-- The loop of `read_dataset` over the catalog columns from index `i` on. -/
def read_dataset_loop (rowPos : Int) : List ColumnMeta → Nat → DecodeState → Option DecodeState
  | [], _, st => some st
  | column :: rest, i, st =>
    (decodeField rowPos i column.colType st).bind (read_dataset_loop rowPos rest (i + 1))

/-- The function `read_dataset`: add a row and decode the record in the buffer
into it, one field per catalog column. -/
def read_dataset (rs : ResultSet) (tablemeta : TableMeta) (dataBuffer : List Char) :
    Option ResultSet :=
  let added := resultset_addRow rs
  (read_dataset_loop added.2 tablemeta.columns 0
    { rs := added.1, buf := dataBuffer, cp := 0, end_ := 0 }).map fun st => st.rs

/-- The loop of `create_dataset` over the catalog columns from index `i` on. -/
def create_dataset_loop (tablemeta : TableMeta) : List ColumnMeta → Nat → ResultSet →
    Option ResultSet
  | [], _, rs => some rs
  | column :: rest, i, rs =>
    let pos : Int := (i : Int) + 1
    let colfunc := NO_FUNCTION
    let col_typ := column.colType
    (resultset_insertColumn rs pos tablemeta.name column.name colfunc col_typ).bind
      fun r => create_dataset_loop tablemeta rest (i + 1) r.1

/-- The function `create_dataset`: an empty working table with one column per
catalog column. -/
def create_dataset (tablemeta : TableMeta) : Option ResultSet :=
  create_dataset_loop tablemeta tablemeta.columns 0 resultset_create

/-- C `fgets` reading at most `n` more characters of the stream: the
characters read, the rest of the stream, and whether the end of the file was
hit while reading. -/
def fgetsAux : Nat → List Char → List Char × List Char × Bool
  | 0, s => ([], s, false)
  | _ + 1, [] => ([], [], true)
  | n + 1, c :: s =>
    if c = '\n' then ([c], s, false)
    else
      let r := fgetsAux n s
      (c :: r.1, r.2.1, r.2.2)

/-- C `fgets(buf, size, stream)`: at most `size - 1` characters, the newline
included. -/
def fgets (size : Nat) (stream : List Char) : List Char × List Char × Bool :=
  fgetsAux (size - 1) stream

/-- The reading loop of `execute_query`: `fgets`, stop at the end of the file,
else `read_dataset`. The buffer handed to the decoder is the line that
`fgets` stored with its terminator. The first argument bounds the number of
iterations. -/
def readLoop (tablemeta : TableMeta) (dataBufferSize : Nat) :
    Nat → List Char → ResultSet → Option ResultSet
  | 0, _, _ => none
  | fuel + 1, stream, rs =>
    let r := fgets dataBufferSize stream
    if r.2.2 then some rs
    else (read_dataset rs tablemeta (r.1 ++ [NUL])).bind (readLoop tablemeta dataBufferSize fuel r.2.1)

/-- The table scan at the head of `execute_query`: the first table whose name
equals the plan's table name ignoring case. -/
def findTable (table : CStr) : List TableMeta → Option TableMeta
  | [] => none
  | t :: rest => if icmpStrings t.name table = 0 then some t else findTable table rest

/-- How a call of `execute_query` ends. -/
inductive Termination where
  | returned
  | aborted
  deriving DecidableEq, Repr

/-- What a call of `execute_query` does that can be seen from outside: the
messages it prints, the paths it opens, the table it hands to
`resultset_print`, and how it ends. -/
structure Outcome where
  output : List String
  opened : List CStr
  printed : Option ResultSet
  termination : Termination
  deriving DecidableEq, Repr

/-- The stages of `execute_query` after decoding: filter, project, reorder,
apply functions, limit. -/
def pipeline (applyFunction : ResultSet → Int → Int → Option ResultSet)
    (tablemeta : TableMeta) (select : SELECT) (rs : ResultSet) : Option ResultSet :=
  (check_where select rs).bind fun rs =>
  (filter_col tablemeta select rs).bind fun rs =>
  (reorder_col select rs).bind fun rs =>
  (app_func applyFunction select rs).bind fun rs =>
  check_lim select.limit rs

/-- The function `execute_query`. The file system is the map `files` from a
path to the content of the file, and the container's
`resultset_applyFunction` is a parameter; a null handle is `none`. -/
def execute_query (files : CStr → Option (List Char))
    (applyFunction : ResultSet → Int → Int → Option ResultSet)
    (db : Option Database) (query : Option QUERY) : Outcome :=
  match db with
  | none => { output := [], opened := [], printed := none, termination := Termination.aborted }
  | some db =>
    match query with
    | none =>
      { output := [], opened := [], printed := none, termination := Termination.aborted }
    | some query =>
      if query.queryType ≠ SELECT_QUERY then
        { output := ["**INTERNAL ERROR: execute() only supports SELECT queries.\n"],
          opened := [], printed := none, termination := Termination.returned }
      else
        let select := query.select
        match findTable select.table db.tables with
        | none =>
          { output := [], opened := [], printed := none, termination := Termination.aborted }
        | some tablemeta =>
          let path : CStr := db.name ++ "/".toList ++ tablemeta.name ++ ".data".toList
          match files path with
          | none =>
            { output := ["**INTERNAL ERROR: table's data file '" ++ String.mk path ++
                "' not found.\n"],
              opened := [path], printed := none, termination := Termination.aborted }
          | some datafile =>
            let dataBufferSize : Int := wrap32 (tablemeta.recordSize + 3)
            if dataBufferSize ≤ 0 then
              { output := [], opened := [path], printed := none,
                termination := Termination.aborted }
            else
              let decoded := (create_dataset tablemeta).bind
                (readLoop tablemeta dataBufferSize.toNat (datafile.length + 1) datafile)
              match decoded.bind (pipeline applyFunction tablemeta select) with
              | none =>
                { output := [], opened := [path], printed := none,
                  termination := Termination.aborted }
              | some rs =>
                { output := [], opened := [path], printed := some rs,
                  termination := Termination.returned }

/-! ## Reading a working table -/

/-- The type code of the column a value belongs in. -/
def RSValue.typeCode : RSValue → Int
  | RSValue.int _ => COL_TYPE_INT
  | RSValue.real _ => COL_TYPE_REAL
  | RSValue.str _ => COL_TYPE_STRING

/-- The invariant of the working table: every column holds one value per row,
and the value's tag is the column's declared type. -/
def ResultSet.WellFormed (rs : ResultSet) : Prop :=
  ∀ c ∈ rs.columns, c.data.length = rs.numRows ∧ ∀ v ∈ c.data, v.typeCode = c.coltype

/-- The values of the row with 0-based index `i`, one per live column in
position order. -/
def ResultSet.row (rs : ResultSet) (i : Nat) : List RSValue :=
  rs.columns.map fun c => c.data.getD i (RSValue.int 0)

/-- The rows of the working table in ordinal order. -/
def ResultSet.rows (rs : ResultSet) : List (List RSValue) :=
  (List.range rs.numRows).map rs.row

/-- What identifies a column apart from its values: table, name, function tag
and declared type. -/
def RSColumn.header (c : RSColumn) : RSColumn := { c with data := [] }

/-- The identities of the live columns in position order. -/
def ResultSet.headers (rs : ResultSet) : List RSColumn := rs.columns.map RSColumn.header

/-- The elements of a list whose flag in the mask is set, in order. -/
def keepByMask {α : Type} : List Bool → List α → List α
  | b :: m, x :: xs => if b then x :: keepByMask m xs else keepByMask m xs
  | _, _ => []

/-- The mask applied to the first `k` elements, the others left in place. -/
def keepPrefix {α : Type} (m : List Bool) (k : Nat) (xs : List α) : List α :=
  keepByMask (m.take k) xs ++ xs.drop k

/-- The six comparison operators of a WHERE predicate by tag:
`0 <`, `1 <=`, `2 >`, `3 >=`, `4 =`, `5 <>`. -/
def opHolds {α : Type} [LinearOrder α] (op : Int) (a b : α) : Prop :=
  (op = 0 ∧ a < b) ∨ (op = 1 ∧ a ≤ b) ∨ (op = 2 ∧ a > b) ∨ (op = 3 ∧ a ≥ b) ∨
    (op = 4 ∧ a = b) ∨ (op = 5 ∧ a ≠ b)

instance opHoldsDecidable {α : Type} [LinearOrder α] (op : Int) (a b : α) :
    Decidable (opHolds op a b) := by
  unfold opHolds; infer_instance

/-- Whether a row's value at the column of 0-based index `p` passes the
test `f`. -/
def rowHolds (p : Nat) (f : RSValue → Bool) (r : List RSValue) : Bool :=
  match r.get? p with
  | some v => f v
  | none => false

/-- The test `v op n` under integer comparison. -/
def intHolds (op : Int) (n : Int) : RSValue → Bool
  | RSValue.int v => decide (opHolds op v n)
  | _ => false

/-- The test `v op q` under comparison of reals. -/
def realHolds (op : Int) (q : Rat) : RSValue → Bool
  | RSValue.real v => decide (opHolds op v q)
  | _ => false

/-- The test `v op lit` under the lexicographic order of strings. -/
def strHolds (op : Int) (lit : CStr) : RSValue → Bool
  | RSValue.str v => decide (opHolds op v lit)
  | _ => false

/-- The rows read off a list of columns of `n` cells each. -/
def rowsOf (cols : List (List RSValue)) (n : Nat) : List (List RSValue) :=
  (List.range n).map fun i => cols.map fun l => l.getD i (RSValue.int 0)

/-- The working table after the rows with ordinals `1 .. k` were visited and
those whose flag in `m` is clear were deleted. -/
def ResultSet.keepFirst (rs : ResultSet) (m : List Bool) (k : Nat) : ResultSet :=
  { columns := rs.columns.map fun c => { c with data := keepPrefix m k c.data },
    numRows := rs.numRows - (m.take k).count false }

/-- The working table cut down to its first `L` rows. -/
def ResultSet.firstRows (rs : ResultSet) (L : Nat) : ResultSet :=
  { columns := rs.columns.map fun c => { c with data := c.data.take L },
    numRows := min rs.numRows L }

/-- Two names are the same ignoring letter case. -/
def sameNameIgnoringCase (a b : CStr) : Bool :=
  decide (a.map Char.toLower = b.map Char.toLower)

/-- Whether a name equals, ignoring case, some entry of the requested
column list. -/
def requestedName (cols : List COLUMN) (name : CStr) : Bool :=
  cols.any fun r => sameNameIgnoringCase name r.name

/-- The working table was built from the catalog entry: its columns are the
catalog's columns in catalog order, with the table's name as qualifier. -/
def ResultSet.BuiltFrom (rs : ResultSet) (tm : TableMeta) : Prop :=
  rs.columns.map (fun c => (c.tableName, c.colName, c.coltype)) =
    tm.columns.map (fun m => (tm.name, m.name, m.colType))

/-! ## Reading the later stages -/

/-- The column that `create_dataset` makes of a catalog column: the table's
name as qualifier, no function, the declared type, no values yet. -/
def freshColumn (tm : TableMeta) (m : ColumnMeta) : RSColumn :=
  { tableName := tm.name, colName := m.name, function := NO_FUNCTION, coltype := m.colType,
    data := [] }

/-- The working table with no rows and one fresh column per catalog column, in
catalog order. -/
def freshTable (tm : TableMeta) : ResultSet :=
  { columns := tm.columns.map (freshColumn tm), numRows := 0 }

/-- The requests `resultset_applyFunction(rs, function, i)` that the loop of
`app_func` makes from entry number `i` on, as pairs (function, position). -/
def app_func_calls : List COLUMN → Int → List (Int × Int)
  | [], _ => []
  | cur :: next, i =>
    if cur.function ≠ NO_FUNCTION then (cur.function, i) :: app_func_calls next (i + 1)
    else app_func_calls next (i + 1)

/-- Hand a list of requests to the container one after the other, stopping
when one does not complete. -/
def applyCalls (applyFunction : ResultSet → Int → Int → Option ResultSet) :
    List (Int × Int) → ResultSet → Option ResultSet
  | [], rs => some rs
  | call :: rest, rs => (applyFunction rs call.1 call.2).bind (applyCalls applyFunction rest)

/-- The requests that a column list with function tags calls for: for each
entry, in list order, whose tag is not NO_FUNCTION, the tag and the 1-based
number of the entry. -/
def taggedEntries (cols : List COLUMN) : List (Int × Int) :=
  (cols.enum.filter fun p => decide (p.2.function ≠ NO_FUNCTION)).map
    fun p => (p.2.function, (p.1 : Int) + 1)

/-- The requests `resultset_moveColumn(rs, col_index, i)` that the loop of
`reorder_col` makes from entry number `i` on, up to and including the first
that does not complete: the position found, the target position, and the
number of live columns at that moment. -/
def reorder_col_requests : List COLUMN → Int → ResultSet → List (Int × Int × Nat)
  | [], _, _ => []
  | cur :: next, i, rs =>
    match rs.columns with
    | [] => []
    | first :: _ =>
      let col_index := resultset_findColumn rs 1 first.tableName cur.name
      (col_index, i, rs.numCols) ::
        (match resultset_moveColumn rs col_index i with
         | none => []
         | some rs' => reorder_col_requests next (i + 1) rs')

/-- The rational is a value of the C type `double`: `m / 2 ^ k` with a
significand `m` of magnitude at most `2 ^ 53` and `k` within the exponent
range of the normal numbers. -/
def IsDoubleValue (q : Rat) : Prop :=
  ∃ (m : Int) (k : Nat), -9007199254740992 ≤ m ∧ m ≤ 9007199254740992 ∧ k ≤ 1022 ∧
    q * (2 : Rat) ^ k = (m : Rat)

/-! ## The tables and plans of the examples -/

/-- The catalog entry `Employees(id INT, name STRING, salary REAL)`. -/
def employeesMeta : TableMeta :=
  { name := "Employees".toList,
    columns := [⟨"id".toList, COL_TYPE_INT⟩, ⟨"name".toList, COL_TYPE_STRING⟩,
      ⟨"salary".toList, COL_TYPE_REAL⟩],
    recordSize := 24 }

/-- The `id` column of the decoded Employees table. -/
def employeesId : RSColumn :=
  { tableName := "Employees".toList, colName := "id".toList, function := NO_FUNCTION,
    coltype := COL_TYPE_INT, data := [RSValue.int 1, RSValue.int 2] }

/-- The `name` column of the decoded Employees table. -/
def employeesName : RSColumn :=
  { tableName := "Employees".toList, colName := "name".toList, function := NO_FUNCTION,
    coltype := COL_TYPE_STRING,
    data := [RSValue.str "Alice".toList, RSValue.str "Bob".toList] }

/-- The `salary` column of the decoded Employees table: 50000.0 and 42000.5. -/
def employeesSalary : RSColumn :=
  { tableName := "Employees".toList, colName := "salary".toList, function := NO_FUNCTION,
    coltype := COL_TYPE_REAL, data := [RSValue.real 50000, RSValue.real (mkRat 84001 2)] }

/-- The working table decoded from the records `1 "Alice" 50000.0` and
`2 "Bob" 42000.5`. -/
def employees : ResultSet :=
  { columns := [employeesId, employeesName, employeesSalary], numRows := 2 }

/-- The predicate `id = 2` with a literal of kind INTEGER. -/
def whereIdEq2 : EXPR :=
  { column := "id".toList, operator := 4, litType := INTEGER_LITERAL, value := "2".toList }

/-- The plan `SELECT id, name FROM employees WHERE id = 2`. -/
def selectIdEq2 : SELECT :=
  { table := "employees".toList,
    columns := [⟨"id".toList, NO_FUNCTION⟩, ⟨"name".toList, NO_FUNCTION⟩],
    «where» := some whereIdEq2, limit := none }

/-- A name with every letter in lower case. -/
def lowerName (s : CStr) : CStr := s.map Char.toLower

/-- The column of a list that a requested entry names, ignoring case. -/
def columnNamed (cols : List RSColumn) (r : COLUMN) : Option RSColumn :=
  cols.find? fun c => sameNameIgnoringCase c.colName r.name

/-- The plan `SELECT id, id FROM employees`: one name requested twice. -/
def selectIdId : SELECT :=
  { table := "employees".toList,
    columns := [⟨"id".toList, NO_FUNCTION⟩, ⟨"id".toList, NO_FUNCTION⟩],
    «where» := none, limit := none }

/-- The plan `SELECT salary, id FROM employees`: two columns against
catalog order. -/
def selectSalaryId : SELECT :=
  { table := "employees".toList,
    columns := [⟨"salary".toList, NO_FUNCTION⟩, ⟨"id".toList, NO_FUNCTION⟩],
    «where» := none, limit := none }

/-- The predicate `salary >= 42000` with a literal of kind INTEGER. -/
def whereSalaryGe : EXPR :=
  { column := "salary".toList, operator := 3, litType := INTEGER_LITERAL,
    value := "42000".toList }

/-- The plan `SELECT name FROM employees WHERE salary >= 42000`. -/
def selectSalaryGe : SELECT :=
  { table := "employees".toList, columns := [⟨"name".toList, NO_FUNCTION⟩],
    «where» := some whereSalaryGe, limit := none }

/-- The predicate `name = 'alice'` with a literal of kind STRING. -/
def whereNameAlice : EXPR :=
  { column := "name".toList, operator := 4, litType := STRING_LITERAL,
    value := "alice".toList }

/-- The plan `SELECT name FROM employees WHERE name = 'alice'`. -/
def selectNameAlice : SELECT :=
  { table := "employees".toList, columns := [⟨"name".toList, NO_FUNCTION⟩],
    «where» := some whereNameAlice, limit := none }

/-- A catalog entry with a REAL column in front of an INTEGER column. -/
def realFirstMeta : TableMeta :=
  { name := "T".toList,
    columns := [⟨"x".toList, COL_TYPE_REAL⟩, ⟨"n".toList, COL_TYPE_INT⟩],
    recordSize := 4 }

/-- The record of `realFirstMeta` that writes the values 1.5 and 7: each field
followed by a space, the line ended by a newline, as `fgets` stores it. -/
def realFirstRecord : List Char := "1.5 7 \n".toList ++ [NUL]

/-- The REAL column of the table decoded from `realFirstRecord`. -/
def realFirstX : RSColumn :=
  { tableName := "T".toList, colName := "x".toList, function := NO_FUNCTION,
    coltype := COL_TYPE_REAL, data := [RSValue.real (mkRat 3 2)] }

/-- The INTEGER column that the decoder produces when the bytes `99 ` lie
behind the record's terminator in the buffer. -/
def realFirstStaleN : RSColumn :=
  { tableName := "T".toList, colName := "n".toList, function := NO_FUNCTION,
    coltype := COL_TYPE_INT, data := [RSValue.int 99] }

/-- The table with the columns `realFirstX` and `realFirstStaleN`. -/
def realFirstStale : ResultSet :=
  { columns := [realFirstX, realFirstStaleN], numRows := 1 }

/-- The data file of Employees: two records. -/
def employeesFile : List Char := "1 \"Alice\" 50000.0\n2 \"Bob\" 42000.5\n".toList

/-- What `execute_query` does on a query that is not a SELECT: one message,
no file opened, no table printed, a normal return. -/
def unsupportedOutcome : Outcome :=
  { output := ["**INTERNAL ERROR: execute() only supports SELECT queries.\n"],
    opened := [], printed := none, termination := Termination.returned }

/-- A database `Co` with the table Employees. -/
def companyDb : Database := { name := "Co".toList, tables := [employeesMeta] }

/-- A file system that holds the data file of Employees and nothing else. -/
def companyFiles : CStr → Option (List Char) := fun path =>
  if path = "Co/Employees.data".toList then some employeesFile else none

/-- A container function applier that leaves the table as it is. -/
def noFunction : ResultSet → Int → Int → Option ResultSet := fun rs _ _ => some rs

/-- A plan whose kind is not SELECT (the kind after SELECT in `ast.h`). -/
def insertQuery : QUERY := { queryType := 1, select := selectIdEq2 }

/-- The outcome of `execute_query` when the table scan finds no table: the
assertion stops the process before a file is opened. -/
def assertionOutcome : Outcome :=
  { output := [], opened := [], printed := none, termination := Termination.aborted }

/-- The path of a table's data file, `<database>/<table>.data`. -/
def dataPath (db : Database) (tm : TableMeta) : CStr :=
  db.name ++ "/".toList ++ tm.name ++ ".data".toList

/-- The predicate `name = 5`: a literal of kind INTEGER against the STRING
column `name`. -/
def whereNameEq5 : EXPR :=
  { column := "name".toList, operator := 4, litType := INTEGER_LITERAL, value := "5".toList }

/-- The plan `SELECT name FROM employees WHERE name = 5`. -/
def selectNameEq5 : SELECT :=
  { table := "employees".toList, columns := [⟨"name".toList, NO_FUNCTION⟩],
    «where» := some whereNameEq5, limit := none }

/-- The SELECT query `SELECT id, name FROM employees WHERE id = 2`. -/
def queryIdEq2 : QUERY := { queryType := SELECT_QUERY, select := selectIdEq2 }

/-- The value of a decimal digit character. -/
def digitValue (c : Char) : Nat := c.toNat - 48

/-- The field is the base-10 text of the integer `n`: a non-empty run of
decimal digits whose base-10 value is the magnitude of `n`, preceded by
nothing or `+` when `n` is not negative and by `-` when `n` is not
positive. -/
def IsIntText (field : CStr) (n : Int) : Prop :=
  ∃ ds : CStr, ds ≠ [] ∧ (∀ c ∈ ds, c.isDigit = true) ∧
    (((field = ds ∨ field = '+' :: ds) ∧ n = (Nat.ofDigits 10 (ds.reverse.map digitValue) : Nat)) ∨
     (field = '-' :: ds ∧ n = -((Nat.ofDigits 10 (ds.reverse.map digitValue) : Nat) : Int)))

/-- The table of `realFirstMeta` with one fresh row, as `read_dataset` has it
when it starts to decode. -/
def realFirstTable : ResultSet := (resultset_addRow (freshTable realFirstMeta)).1

/-- The state of `read_dataset` at the start of `realFirstRecord`. -/
def realFirstStart : DecodeState :=
  { rs := realFirstTable, buf := realFirstRecord, cp := 0, end_ := 0 }

/-- The Employees table with one fresh row. -/
def employeesFreshRow : ResultSet := (resultset_addRow (freshTable employeesMeta)).1

/-- A state of `read_dataset` at the start of the record `-17 "O'Neil jr" 2.5`:
a signed integer field, then a quoted string field. -/
def signedStart : DecodeState :=
  { rs := employeesFreshRow, buf := "-17 \"O'Neil jr\" 2.5\n".toList ++ [NUL], cp := 0,
    end_ := 0 }

/-- The state of `read_dataset` on the same record when the first field has
been decoded and the cursor is at the opening quote of the second. -/
def quotedStart : DecodeState :=
  { rs := employeesFreshRow, buf := "-17 \"O'Neil jr\" 2.5\n".toList ++ [NUL], cp := 4,
    end_ := 4 }

/-- The `name` column of `employeesFreshRow`: one fresh cell. -/
def freshNameColumn : RSColumn :=
  { tableName := "Employees".toList, colName := "name".toList, function := NO_FUNCTION,
    coltype := COL_TYPE_STRING, data := [RSValue.str []] }

/-- The `id` column of `employeesFreshRow`: one fresh cell. -/
def freshIdColumn : RSColumn :=
  { tableName := "Employees".toList, colName := "id".toList, function := NO_FUNCTION,
    coltype := COL_TYPE_INT, data := [RSValue.int 0] }

theorem keepByMask_nil_left {α : Type} (xs : List α) : keepByMask [] xs = [] := by
  cases xs <;> rfl

theorem keepByMask_nil_right {α : Type} (m : List Bool) : keepByMask m ([] : List α) = [] := by
  cases m <;> rfl

theorem keepByMask_map_filter {α : Type} (f : α → Bool) (xs : List α) :
    keepByMask (xs.map f) xs = xs.filter f := by
  induction xs with
  | nil => rfl
  | cons x xs ih =>
    by_cases h : f x = true
    · simp [keepByMask, h, ih]
    · simp [keepByMask, h, ih]

theorem keepPrefix_zero {α : Type} (m : List Bool) (xs : List α) : keepPrefix m 0 xs = xs := by
  simp [keepPrefix, keepByMask_nil_left]

theorem keepPrefix_cons {α : Type} (b : Bool) (m : List Bool) (k : Nat) (x : α) (xs : List α) :
    keepPrefix (b :: m) (k + 1) (x :: xs) =
      if b then x :: keepPrefix m k xs else keepPrefix m k xs := by
  cases b <;> simp [keepPrefix, keepByMask]

theorem keepPrefix_full {α : Type} (m : List Bool) (xs : List α) (k : Nat)
    (hm : m.length ≤ k) (hx : xs.length ≤ k) : keepPrefix m k xs = keepByMask m xs := by
  simp [keepPrefix, List.take_of_length_le hm, List.drop_of_length_le hx]

/-- Visiting one more element whose flag is set changes nothing. -/
theorem keepPrefix_succ_keep {α : Type} :
    ∀ (k : Nat) (m : List Bool) (xs : List α), k < xs.length →
      m.get? k = some true → keepPrefix m (k + 1) xs = keepPrefix m k xs
  | 0, b :: m, x :: xs, _, h => by
    simp at h
    simp [keepPrefix_cons, keepPrefix_zero, h]
  | k + 1, b :: m, x :: xs, hk, h => by
    have hk' : k < xs.length := by simpa using hk
    have h' : m.get? k = some true := by simpa using h
    rw [keepPrefix_cons, keepPrefix_cons, keepPrefix_succ_keep k m xs hk' h']
  | _, [], _, _, h => by simp at h
  | _, _ :: _, [], hk, _ => by simp at hk

/-- Visiting one more element whose flag is clear is visiting the list with
that element erased. -/
theorem keepPrefix_succ_drop {α : Type} :
    ∀ (k : Nat) (m : List Bool) (xs : List α), k < xs.length →
      m.get? k = some false →
      keepPrefix m (k + 1) xs = keepPrefix (m.eraseIdx k) k (xs.eraseIdx k)
  | 0, b :: m, x :: xs, _, h => by
    simp at h
    simp [keepPrefix_cons, keepPrefix_zero, h]
  | k + 1, b :: m, x :: xs, hk, h => by
    have hk' : k < xs.length := by simpa using hk
    have h' : m.get? k = some false := by simpa using h
    simp only [List.eraseIdx_cons_succ]
    rw [keepPrefix_cons, keepPrefix_cons, keepPrefix_succ_drop k m xs hk' h']
  | _, [], _, _, h => by simp at h
  | _, _ :: _, [], hk, _ => by simp at hk

theorem map_eraseIdx {α β : Type} (f : α → β) :
    ∀ (l : List α) (k : Nat), (l.eraseIdx k).map f = (l.map f).eraseIdx k
  | [], _ => by simp
  | _ :: _, 0 => by simp
  | x :: xs, k + 1 => by simp [map_eraseIdx f xs k]

theorem count_false_take_succ (m : List Bool) (k : Nat) (b : Bool) (h : m.get? k = some b) :
    (m.take (k + 1)).count false = (m.take k).count false + (if b then 0 else 1) := by
  have hk : k < m.length := by
    by_contra h1
    rw [List.get?_eq_none.mpr (Nat.le_of_not_lt h1)] at h
    cases h
  have hb : m[k] = b := by
    have := List.get?_eq_get hk
    rw [h] at this
    simpa using this.symm
  rw [List.take_succ, List.getElem?_eq_getElem hk, hb]
  cases b <;> simp

theorem take_eraseIdx_self {α : Type} :
    ∀ (l : List α) (k : Nat), (l.eraseIdx k).take k = l.take k
  | [], _ => by simp
  | _ :: _, 0 => by simp
  | x :: xs, k + 1 => by simp [take_eraseIdx_self xs k]



theorem rows_eq_rowsOf (rs : ResultSet) :
    rs.rows = rowsOf (rs.columns.map RSColumn.data) rs.numRows := by
  simp [ResultSet.rows, rowsOf, ResultSet.row, List.map_map, Function.comp_def]

theorem rowsOf_succ (cols : List (List RSValue)) (n : Nat) :
    rowsOf cols (n + 1) =
      (cols.map fun l => l.getD 0 (RSValue.int 0)) :: rowsOf (cols.map List.tail) n := by
  simp only [rowsOf, List.range_succ_eq_map, List.map_cons, List.map_map]
  congr 1
  apply List.map_congr_left
  intro i _
  apply List.map_congr_left
  intro l _
  cases l <;> simp [Function.comp]

theorem rowsOf_keepByMask :
    ∀ (m : List Bool) (cols : List (List RSValue)), (∀ l ∈ cols, l.length = m.length) →
      rowsOf (cols.map (keepByMask m)) (m.count true) = keepByMask m (rowsOf cols m.length)
  | [], cols, _ => by simp [rowsOf, keepByMask_nil_left]
  | b :: m, cols, h => by
    have hcons : ∀ l ∈ cols, ∃ x xs, l = x :: xs ∧ xs.length = m.length := by
      intro l hl
      have := h l hl
      cases l with
      | nil => simp at this
      | cons x xs => exact ⟨x, xs, rfl, by simpa using this⟩
    have htail : ∀ l ∈ cols.map List.tail, l.length = m.length := by
      intro l hl
      simp only [List.mem_map] at hl
      obtain ⟨l0, hl0, rfl⟩ := hl
      obtain ⟨x, xs, rfl, hx⟩ := hcons l0 hl0
      simpa using hx
    have ih := rowsOf_keepByMask m (cols.map List.tail) htail
    rw [List.length_cons, rowsOf_succ]
    cases b with
    | true =>
      have hc : (true :: m).count true = m.count true + 1 := by simp
      rw [hc, rowsOf_succ]
      simp only [keepByMask, if_true]
      rw [← ih]
      simp only [List.map_map]
      congr 1
      · apply List.map_congr_left
        intro l hl
        obtain ⟨x, xs, rfl, _⟩ := hcons l hl
        simp [keepByMask]
      · congr 1
        apply List.map_congr_left
        intro l hl
        obtain ⟨x, xs, rfl, _⟩ := hcons l hl
        simp [keepByMask]
    | false =>
      have hc : (false :: m).count true = m.count true := by simp
      rw [hc]
      simp only [keepByMask, Bool.false_eq_true, if_false]
      rw [← ih]
      simp only [List.map_map]
      congr 1
      apply List.map_congr_left
      intro l hl
      obtain ⟨x, xs, rfl, _⟩ := hcons l hl
      simp [keepByMask]

theorem count_true_add_false (m : List Bool) : m.count true + m.count false = m.length := by
  induction m with
  | nil => rfl
  | cons b m ih => cases b <;> simp <;> omega


/-- The rows of the table left by a full pass are the rows whose flag is set. -/
theorem rows_keepFirst (rs : ResultSet) (m : List Bool)
    (hlen : ∀ c ∈ rs.columns, c.data.length = rs.numRows) (hm : m.length = rs.numRows) :
    (rs.keepFirst m rs.numRows).rows = keepByMask m rs.rows := by
  rw [rows_eq_rowsOf, rows_eq_rowsOf]
  have h1 : (rs.keepFirst m rs.numRows).columns.map RSColumn.data =
      (rs.columns.map RSColumn.data).map (keepByMask m) := by
    simp only [ResultSet.keepFirst, List.map_map]
    apply List.map_congr_left
    intro c hc
    simp only [Function.comp]
    exact keepPrefix_full m c.data rs.numRows (by omega) (by rw [hlen c hc])
  have h2 : (rs.keepFirst m rs.numRows).numRows = m.count true := by
    simp only [ResultSet.keepFirst]
    rw [List.take_of_length_le (by omega)]
    have := count_true_add_false m
    omega
  rw [h1, h2, ← hm]
  apply rowsOf_keepByMask
  intro l hl
  simp only [List.mem_map] at hl
  obtain ⟨c, hc, rfl⟩ := hl
  rw [hlen c hc, hm]

/-- The flags computed from one column are the flags computed from the rows. -/
theorem mask_eq_rows (rs : ResultSet) (p : Nat) (c : RSColumn) (f : RSValue → Bool)
    (hc : rs.columns.get? p = some c) (hlen : c.data.length = rs.numRows) :
    c.data.map f = rs.rows.map (rowHolds p f) := by
  apply List.ext_getElem
  · simp [ResultSet.rows, hlen]
  · intro i h1 h2
    have hi : i < c.data.length := by simpa using h1
    simp [ResultSet.rows, ResultSet.row, rowHolds, List.get?_eq_getElem?, List.getElem?_map]
    rw [List.get?_eq_getElem?] at hc
    rw [hc]
    simp [List.getD_eq_getElem?_getD, List.getElem?_eq_getElem hi]


/-! ## The row loop of the filter -/
theorem columnAt_mem {rs : ResultSet} {col : Int} {c : RSColumn}
    (h : columnAt rs col = some c) : c ∈ rs.columns := by
  unfold columnAt at h
  split at h
  · exact List.get?_mem h
  · cases h

theorem keepFirst_zero (rs : ResultSet) (m : List Bool) : rs.keepFirst m 0 = rs := by
  cases rs with
  | mk cols n =>
    simp [ResultSet.keepFirst, keepPrefix_zero]

theorem cellAt_succ (rs : ResultSet) (k : Nat) (col : Int) (c : RSColumn)
    (hk : k < rs.numRows) (hc : columnAt rs col = some c) :
    cellAt rs (1 + (k : Int)) col = c.data.get? k := by
  unfold cellAt
  have h1 : (1 : Int) ≤ 1 + (k : Int) ∧ 1 + (k : Int) ≤ (rs.numRows : Int) := by omega
  rw [if_pos h1, hc]
  simp

theorem deleteRow_succ (rs : ResultSet) (k : Nat) (hk : k < rs.numRows) :
    resultset_deleteRow rs (1 + (k : Int)) = some (rs.eraseRow k) := by
  unfold resultset_deleteRow
  have h1 : (1 : Int) ≤ 1 + (k : Int) ∧ 1 + (k : Int) ≤ (rs.numRows : Int) := by omega
  rw [if_pos h1]
  simp

theorem columnAt_map (rs : ResultSet) (f : RSColumn → RSColumn) (n : Nat) (col : Int) :
    columnAt { columns := rs.columns.map f, numRows := n } col = (columnAt rs col).map f := by
  unfold columnAt
  split
  · simp [List.get?_eq_getElem?]
  · rfl

/-- The row loop of a filter: when the body keeps or deletes the visited row
according to a flag computed from the cell of one column, the loop over the
first `k` ordinals leaves the flagged rows and everything after them. -/
theorem loopDown_keep (body : ResultSet → Int → Option ResultSet) (col : Int)
    (keep : RSValue → Bool) (good : RSValue → Prop)
    (hbody : ∀ rs i v, cellAt rs i col = some v → good v →
      body rs i = if keep v then some rs else resultset_deleteRow rs i) :
    ∀ (k : Nat) (rs : ResultSet) (c : RSColumn),
      (∀ c' ∈ rs.columns, c'.data.length = rs.numRows) → k ≤ rs.numRows →
      columnAt rs col = some c → (∀ v ∈ c.data, good v) →
      loopDown body 1 k rs = some (rs.keepFirst (c.data.map keep) k)
  | 0, rs, c, _, _, _, _ => by
    simp [loopDown, keepFirst_zero]
  | k + 1, rs, c, hlen, hk, hc, hgood => by
    have hk' : k < rs.numRows := hk
    have hclen : c.data.length = rs.numRows := hlen c (columnAt_mem hc)
    have hkc : k < c.data.length := by omega
    have hcell : cellAt rs (1 + (k : Int)) col = some c.data[k] := by
      rw [cellAt_succ rs k col c hk' hc, List.get?_eq_getElem?, List.getElem?_eq_getElem hkc]
    have hb := hbody rs (1 + (k : Int)) c.data[k] hcell (hgood _ (List.getElem_mem hkc))
    have hm : (c.data.map keep).get? k = some (keep c.data[k]) := by
      simp [List.get?_eq_getElem?, List.getElem?_eq_getElem hkc]
    simp only [loopDown, hb]
    by_cases hv : keep c.data[k] = true
    · rw [if_pos hv, Option.some_bind,
        loopDown_keep body col keep good hbody k rs c hlen (Nat.le_of_lt hk') hc hgood]
      rw [hv] at hm
      congr 1
      simp only [ResultSet.keepFirst, count_false_take_succ _ k true hm]
      congr 1
      apply List.map_congr_left
      intro c' hc'
      rw [keepPrefix_succ_keep k _ c'.data (by rw [hlen c' hc']; exact hk') hm]
    · have hv' : keep c.data[k] = false := by simpa using hv
      rw [if_neg hv, deleteRow_succ rs k hk', Option.some_bind]
      rw [hv'] at hm
      have hlen1 : ∀ c' ∈ (rs.eraseRow k).columns,
             c'.data.length = (rs.eraseRow k).numRows := by
        intro c' hc'
        simp only [ResultSet.eraseRow, List.mem_map] at hc' ⊢
        obtain ⟨c0, hc0, rfl⟩ := hc'
        simp [List.length_eraseIdx, hlen c0 hc0, hk']
      have hc1 : columnAt (rs.eraseRow k) col
             = some { c with data := c.data.eraseIdx k } := by
        rw [ResultSet.eraseRow, columnAt_map, hc]; rfl
      rw [loopDown_keep body col keep good hbody k _ _ hlen1
        (by simp only [ResultSet.eraseRow]; omega) hc1
        (fun v hv => hgood v (List.mem_of_mem_eraseIdx hv))]
      congr 1
      simp only [ResultSet.keepFirst, ResultSet.eraseRow, count_false_take_succ _ k false hm,
        List.map_map, map_eraseIdx, take_eraseIdx_self]
      congr 1
      · apply List.map_congr_left
        intro c' hc'
        simp only [Function.comp]
        rw [keepPrefix_succ_drop k _ c'.data (by rw [hlen c' hc']; exact hk') hm]
      · simp; omega



theorem wrap32_of_range (n : Int) (h : -2147483648 ≤ n ∧ n ≤ 2147483647) : wrap32 n = n := by
  unfold wrap32; omega

theorem doubleToInt_intCast (n : Int) (h : -2147483648 ≤ n ∧ n ≤ 2147483647) :
    doubleToInt (n : Rat) = n := by
  unfold doubleToInt
  simp [wrap32_of_range n h]

theorem colTypeAt_of_get (c : RSColumn) :
    ∀ (cols : List RSColumn) (i : Int) (p : Nat), cols.get? p = some c →
      colTypeAt (i + (p : Int)) cols i = c.coltype
  | [], _, _, h => by simp at h
  | c0 :: cols, i, 0, h => by
    simp at h
    simp [colTypeAt, h]
  | c0 :: cols, i, p + 1, h => by
    have h' : cols.get? p = some c := by simpa using h
    have hne : ¬ (i + ((p + 1 : Nat) : Int) = i) := by omega
    have := colTypeAt_of_get c cols (i + 1) p h'
    simp only [colTypeAt, if_neg hne]
    rw [← this]
    congr 1
    push_cast
    ring

theorem colTypeAt_of_columnAt (rs : ResultSet) (col : Int) (c : RSColumn)
    (h : columnAt rs col = some c) : colTypeAt col rs.columns 1 = c.coltype := by
  unfold columnAt at h
  split at h
  · rename_i h1
    have := colTypeAt_of_get c rs.columns 1 (col - 1).toNat h
    have e : (1 : Int) + ((col - 1).toNat : Int) = col := by omega
    rwa [e] at this
  · cases h

theorem ints_filter_where_eq (rs : ResultSet) (e : EXPR) (col i : Int) (n x : Int)
    (hval : atof e.value = (n : Rat)) (hrange : -2147483648 ≤ n ∧ n ≤ 2147483647)
    (hop : 0 ≤ e.operator ∧ e.operator ≤ 5)
    (hcell : cellAt rs i col = some (RSValue.int x)) :
    ints_filter_where rs e col i =
      if intHolds e.operator n (RSValue.int x) then some rs else resultset_deleteRow rs i := by
  have hops : e.operator = 0 ∨ e.operator = 1 ∨ e.operator = 2 ∨ e.operator = 3 ∨
      e.operator = 4 ∨ e.operator = 5 := by omega
  simp only [ints_filter_where, resultset_getInt, hcell, hval, doubleToInt_intCast n hrange,
    intHolds, opHolds]
  rcases hops with h | h | h | h | h | h <;> rw [h] <;> simp
  all_goals
    split
    all_goals
      first
        | rw [if_neg (by omega)]
        | rw [if_pos (by omega)]


/-! ## The predicate filter -/

/-- The Employees table of the examples is well formed. -/
theorem employees_wellFormed : employees.WellFormed := by
  unfold ResultSet.WellFormed
  decide

theorem length_keepByMask {α : Type} :
    ∀ (m : List Bool) (xs : List α), xs.length = m.length →
      (keepByMask m xs).length = m.count true
  | [], [], _ => rfl
  | b :: m, x :: xs, h => by
    have h' : xs.length = m.length := by simpa using h
    cases b <;> simp [keepByMask, length_keepByMask m xs h']
  | [], _ :: _, h => by simp at h
  | _ :: _, [], h => by simp at h

theorem mem_of_mem_keepByMask {α : Type} (a : α) :
    ∀ (m : List Bool) (xs : List α), a ∈ keepByMask m xs → a ∈ xs
  | [], xs, h => by simp [keepByMask_nil_left] at h
  | _ :: _, [], h => by simp [keepByMask] at h
  | b :: m, x :: xs, h => by
    cases b with
    | true =>
      simp only [keepByMask, if_true, List.mem_cons] at h
      rcases h with h | h
      · exact h ▸ List.mem_cons_self _ _
      · exact List.mem_cons_of_mem _ (mem_of_mem_keepByMask a m xs h)
    | false =>
      simp only [keepByMask, Bool.false_eq_true, if_false] at h
      exact List.mem_cons_of_mem _ (mem_of_mem_keepByMask a m xs h)

/-- What a full pass leaves: the same columns, the rows that pass the test,
in order, and a well-formed table. -/
theorem keepFirst_spec (rs : ResultSet) (p : Nat) (c : RSColumn) (f : RSValue → Bool)
    (hwf : rs.WellFormed) (hc : rs.columns.get? p = some c) :
    (rs.keepFirst (c.data.map f) rs.numRows).headers = rs.headers ∧
    (rs.keepFirst (c.data.map f) rs.numRows).rows = rs.rows.filter (rowHolds p f) ∧
    (rs.keepFirst (c.data.map f) rs.numRows).WellFormed := by
  have hlen : ∀ c' ∈ rs.columns, c'.data.length = rs.numRows := fun c' h => (hwf c' h).1
  have hclen : c.data.length = rs.numRows := hlen c (List.get?_mem hc)
  have hm : (c.data.map f).length = rs.numRows := by simpa using hclen
  refine ⟨?_, ?_, ?_⟩
  · simp [ResultSet.headers, ResultSet.keepFirst, RSColumn.header, Function.comp_def]
  · rw [rows_keepFirst rs _ hlen hm, mask_eq_rows rs p c f hc hclen, keepByMask_map_filter]
  · intro c' hc'
    simp only [ResultSet.keepFirst, List.mem_map] at hc'
    obtain ⟨c0, hc0, rfl⟩ := hc'
    have h0 := hwf c0 hc0
    have hfull : keepPrefix (c.data.map f) rs.numRows c0.data = keepByMask (c.data.map f) c0.data :=
      keepPrefix_full _ _ _ (by omega) (by omega)
    simp only [hfull]
    constructor
    · rw [length_keepByMask _ _ (by omega)]
      simp only [ResultSet.keepFirst]
      rw [List.take_of_length_le (by omega)]
      have := count_true_add_false (c.data.map f)
      omega
    · intro v hv
      exact h0.2 v (mem_of_mem_keepByMask v _ _ hv)

/-- The pass of `check_where` over the rows, for any test that the loop body
implements on the cells of the WHERE column. -/
theorem check_where_eq_keepFirst (select : SELECT) (rs : ResultSet) (e : EXPR) (c : RSColumn)
    (keep : RSValue → Bool) (good : RSValue → Prop)
    (hlen : ∀ c' ∈ rs.columns, c'.data.length = rs.numRows)
    (hw : select.«where» = some e)
    (hcol : columnAt rs (resultset_findColumn rs 1 select.table e.column) = some c)
    (hgood : ∀ v ∈ c.data, good v)
    (hbody : ∀ t i v,
      cellAt t i (resultset_findColumn rs 1 select.table e.column) = some v → good v →
      whereBody e (resultset_findColumn rs 1 select.table e.column) c.coltype t i =
        if keep v then some t else resultset_deleteRow t i) :
    check_where select rs = some (rs.keepFirst (c.data.map keep) rs.numRows) := by
  unfold check_where
  rw [hw]
  simp only [colTypeAt_of_columnAt rs _ c hcol]
  exact loopDown_keep _ _ keep good hbody rs.numRows rs c hlen (Nat.le_refl _) hcol hgood

theorem columnAt_get {rs : ResultSet} {col : Int} {c : RSColumn}
    (h : columnAt rs col = some c) : rs.columns.get? (col - 1).toNat = some c := by
  unfold columnAt at h
  split at h
  · exact h
  · cases h

/-- Deleting a row leaves the cells of every row with a smaller ordinal where
they were. -/
theorem cellAt_deleteRow_of_lt (t t' : ResultSet) (i j col : Int)
    (hd : resultset_deleteRow t i = some t') (hj : j < i) :
    cellAt t' j col = cellAt t j col := by
  unfold resultset_deleteRow at hd
  split at hd
  · rename_i hi
    cases hd
    unfold cellAt
    by_cases h1 : 1 ≤ j
    · have ha : 1 ≤ j ∧ j ≤ ((t.eraseRow (i - 1).toNat).numRows : Int) := by
        simp only [ResultSet.eraseRow]; omega
      have hb : 1 ≤ j ∧ j ≤ (t.numRows : Int) := by omega
      rw [if_pos ha, if_pos hb, ResultSet.eraseRow, columnAt_map]
      cases hc : columnAt t col with
      | none => rfl
      | some c =>
        simp only [Option.map_some', Option.some_bind, List.get?_eq_getElem?]
        exact List.getElem?_eraseIdx_of_lt _ _ _ (by omega)
    · have ha : ¬ (1 ≤ j ∧ j ≤ ((t.eraseRow (i - 1).toNat).numRows : Int)) := fun h => h1 h.1
      have hb : ¬ (1 ≤ j ∧ j ≤ (t.numRows : Int)) := fun h => h1 h.1
      rw [if_neg ha, if_neg hb]
  · cases hd

/-- C1. Filter correctness on integers: on a well-formed working table whose
WHERE column has declared type INTEGER, with a literal of kind INTEGER whose
value `n` is an `int` and any of the six operators, `check_where` completes,
keeps the columns, and leaves exactly the rows `r` with `r[col] op n` under
integer comparison, in their original order and with their values; and a
deletion never changes a cell of a row with a smaller ordinal, which is why
the descending scan always reads the row it means to read. -/
theorem check_where_int_filter (select : SELECT) (rs : ResultSet) (e : EXPR) (n : Int)
    (c : RSColumn) (hwf : rs.WellFormed) (hw : select.«where» = some e)
    (hkind : e.litType = INTEGER_LITERAL) (hval : atof e.value = (n : Rat))
    (hrange : -2147483648 ≤ n ∧ n ≤ 2147483647)
    (hop : 0 ≤ e.operator ∧ e.operator ≤ 5)
    (hcol : columnAt rs (resultset_findColumn rs 1 select.table e.column) = some c)
    (htype : c.coltype = COL_TYPE_INT) :
    (∃ rs', check_where select rs = some rs' ∧ rs'.headers = rs.headers ∧
      rs'.rows = rs.rows.filter
        (rowHolds (resultset_findColumn rs 1 select.table e.column - 1).toNat
          (intHolds e.operator n)) ∧
      rs'.WellFormed) ∧
    (∀ (t t' : ResultSet) (i j col : Int),
      resultset_deleteRow t i = some t' → j < i → cellAt t' j col = cellAt t j col) := by
  refine ⟨?_, fun t t' i j col hd hj => cellAt_deleteRow_of_lt t t' i j col hd hj⟩
  have hlen : ∀ c' ∈ rs.columns, c'.data.length = rs.numRows := fun c' h => (hwf c' h).1
  have hgood : ∀ v ∈ c.data, ∃ x, v = RSValue.int x := by
    intro v hv
    have := (hwf c (columnAt_mem hcol)).2 v hv
    rw [htype] at this
    cases v with
    | int x => exact ⟨x, rfl⟩
    | real x => simp [RSValue.typeCode, COL_TYPE_INT, COL_TYPE_REAL] at this
    | str x => simp [RSValue.typeCode, COL_TYPE_INT, COL_TYPE_STRING] at this
  have hrun := check_where_eq_keepFirst select rs e c (intHolds e.operator n)
    (fun v => ∃ x, v = RSValue.int x) hlen hw hcol hgood (by
      intro t i v hcell hv
      obtain ⟨x, rfl⟩ := hv
      have h1 : e.litType = 0 ∧ c.coltype = 1 := ⟨hkind, htype⟩
      simp only [whereBody, if_pos h1]
      exact ints_filter_where_eq t e _ i n x hval hrange hop hcell)
  obtain ⟨h1, h2, h3⟩ := keepFirst_spec rs _ c (intHolds e.operator n) hwf (columnAt_get hcol)
  exact ⟨_, hrun, h1, h2, h3⟩


/-- C1, at a concrete input: `WHERE id = 2` on the Employees table; the row
with id 2 survives and the row with id 1 is deleted. -/
theorem check_where_int_filter_witness :
    ((∃ rs', check_where selectIdEq2 employees = some rs' ∧ rs'.headers = employees.headers ∧
      rs'.rows = employees.rows.filter
        (rowHolds (resultset_findColumn employees 1 selectIdEq2.table whereIdEq2.column - 1).toNat
          (intHolds whereIdEq2.operator 2)) ∧
      rs'.WellFormed) ∧
    (∀ (t t' : ResultSet) (i j col : Int),
      resultset_deleteRow t i = some t' → j < i → cellAt t' j col = cellAt t j col)) ∧
    (check_where selectIdEq2 employees).map (fun t => t.rows) =
      some [[RSValue.int 2, RSValue.str "Bob".toList, RSValue.real (mkRat 84001 2)]] :=
  ⟨check_where_int_filter selectIdEq2 employees whereIdEq2 2 employeesId
    employees_wellFormed rfl rfl (by decide) (by decide) (by decide) (by decide) rfl,
    by decide⟩

/-! ## The limit -/

theorem eraseIdx_last_take {α : Type} (l : List α) (k : Nat) (h : l.length = k + 1) :
    l.eraseIdx k = l.take k := by
  rw [List.eraseIdx_eq_take_drop_succ, List.drop_of_length_le (by omega), List.append_nil]

/-- The loop of `check_lim`: deleting the ordinals `L + k` down to `L + 1` of a
table of `L + k` rows leaves the first `L` rows. -/
theorem loopDown_deleteRow_tail (L : Nat) :
    ∀ (k : Nat) (rs : ResultSet), (∀ c ∈ rs.columns, c.data.length = rs.numRows) →
      rs.numRows = L + k →
      loopDown resultset_deleteRow ((L : Int) + 1) k rs = some (rs.firstRows L)
  | 0, rs, hlen, hn => by
    simp only [loopDown]
    congr 1
    cases rs with
    | mk cols n =>
      simp only [ResultSet.firstRows, ResultSet.mk.injEq]
      constructor
      · symm
        rw [← List.map_id cols]
        simp only [List.map_map]
        apply List.map_congr_left
        intro c hc
        have := hlen c hc
        simp only at this hn
        simp [List.take_of_length_le (by omega : c.data.length ≤ L)]
      · simp only at hn; omega
  | k + 1, rs, hlen, hn => by
    have hd : resultset_deleteRow rs ((L : Int) + 1 + (k : Int)) = some (rs.eraseRow (L + k)) := by
      unfold resultset_deleteRow
      rw [if_pos (by omega)]
      congr 2
      omega
    simp only [loopDown, hd, Option.some_bind]
    have hlen1 : ∀ c ∈ (rs.eraseRow (L + k)).columns,
        c.data.length = (rs.eraseRow (L + k)).numRows := by
      intro c hc
      simp only [ResultSet.eraseRow, List.mem_map] at hc ⊢
      obtain ⟨c0, hc0, rfl⟩ := hc
      simp only [List.length_eraseIdx, hlen c0 hc0]
      rw [if_pos (by omega)]
    rw [loopDown_deleteRow_tail L k _ hlen1 (by simp only [ResultSet.eraseRow]; omega)]
    congr 1
    simp only [ResultSet.firstRows, ResultSet.eraseRow, List.map_map, ResultSet.mk.injEq]
    constructor
    · apply List.map_congr_left
      intro c hc
      simp only [Function.comp]
      rw [eraseIdx_last_take c.data (L + k) (by rw [hlen c hc]; omega), List.take_take]
      congr 2
      omega
    · omega

theorem rows_firstRows (rs : ResultSet) (L : Nat) :
    (rs.firstRows L).rows = rs.rows.take L := by
  simp only [ResultSet.rows, ResultSet.firstRows, ← List.map_take, List.take_range]
  rw [Nat.min_comm]
  apply List.map_congr_left
  intro i hi
  simp only [List.mem_range] at hi
  simp only [ResultSet.row, List.map_map]
  apply List.map_congr_left
  intro c hc
  simp only [Function.comp, List.getD_eq_getElem?_getD]
  rw [List.getElem?_take_of_lt (by omega)]

theorem firstRows_of_le (rs : ResultSet) (L : Nat)
    (hlen : ∀ c ∈ rs.columns, c.data.length = rs.numRows) (h : rs.numRows ≤ L) :
    rs.firstRows L = rs := by
  cases rs with
  | mk cols n =>
    simp only [ResultSet.firstRows, ResultSet.mk.injEq]
    constructor
    · rw [← List.map_id cols]
      simp only [List.map_map]
      apply List.map_congr_left
      intro c hc
      have := hlen c hc
      simp only at this h
      simp [List.take_of_length_le (by omega : c.data.length ≤ L)]
    · simp only at h; omega

theorem wellFormed_firstRows (rs : ResultSet) (L : Nat) (hwf : rs.WellFormed) :
    (rs.firstRows L).WellFormed := by
  intro c hc
  simp only [ResultSet.firstRows, List.mem_map] at hc ⊢
  obtain ⟨c0, hc0, rfl⟩ := hc
  have h0 := hwf c0 hc0
  refine ⟨by simp [h0.1, Nat.min_comm], fun v hv => h0.2 v (List.mem_of_mem_take hv)⟩

/-- C2. Limit correctness: on a well-formed working table of `m` rows, with a
limit `N > 0` (such that `N + 1` is still an `int`, as the loop bound of the
source requires), `check_lim` completes and leaves exactly the first
`min m N` rows in their order with their values and the same columns; when
`m <= N` the table is unchanged, and without a limit it is unchanged. -/
theorem check_lim_correct (rs : ResultSet) (N : Int) (hwf : rs.WellFormed)
    (hN : 0 < N) (hmax : N < 2147483647) :
    (∃ rs', check_lim (some ⟨N⟩) rs = some rs' ∧ rs'.headers = rs.headers ∧
      rs'.rows = rs.rows.take N.toNat ∧ rs'.numRows = min rs.numRows N.toNat ∧
      rs'.rows.length = min rs.numRows N.toNat ∧
      ((rs.numRows : Int) ≤ N → rs' = rs) ∧ rs'.WellFormed) ∧
    check_lim none rs = some rs := by
  refine ⟨?_, rfl⟩
  have hlen : ∀ c' ∈ rs.columns, c'.data.length = rs.numRows := fun c' h => (hwf c' h).1
  have hlo : wrap32 (N + 1) = ((N.toNat : Nat) : Int) + 1 := by
    rw [wrap32_of_range (N + 1) (by omega)]
    omega
  refine ⟨rs.firstRows N.toNat, ?_, ?_, rows_firstRows rs _, rfl, ?_, ?_,
    wellFormed_firstRows rs _ hwf⟩
  · simp only [check_lim, hlo]
    by_cases hle : rs.numRows ≤ N.toNat
    · have h0 : ((rs.numRows : Int) - ((N.toNat : Int) + 1) + 1).toNat = 0 := by omega
      rw [h0, firstRows_of_le rs _ hlen hle]
      rfl
    · have hk : ((rs.numRows : Int) - ((N.toNat : Int) + 1) + 1).toNat
          = rs.numRows - N.toNat := by omega
      rw [hk]
      exact loopDown_deleteRow_tail N.toNat _ rs hlen (by omega)
  · simp [ResultSet.headers, ResultSet.firstRows, RSColumn.header, Function.comp_def]
  · rw [rows_firstRows rs _]
    simp [ResultSet.rows, Nat.min_comm]
  · intro h
    exact firstRows_of_le rs _ hlen (by omega)


/-- C2, at a concrete input: `LIMIT 1` on the two rows of Employees. -/
theorem check_lim_correct_witness :
    ((∃ rs', check_lim (some ⟨1⟩) employees = some rs' ∧ rs'.headers = employees.headers ∧
      rs'.rows = employees.rows.take (1 : Int).toNat ∧
      rs'.numRows = min employees.numRows (1 : Int).toNat ∧
      rs'.rows.length = min employees.numRows (1 : Int).toNat ∧
      ((employees.numRows : Int) ≤ 1 → rs' = employees) ∧ rs'.WellFormed) ∧
    check_lim none employees = some employees) ∧
    (check_lim (some ⟨1⟩) employees).map (fun t => t.rows) =
      some [[RSValue.int 1, RSValue.str "Alice".toList, RSValue.real 50000]] :=
  ⟨check_lim_correct employees 1 employees_wellFormed (by decide) (by decide), by decide⟩

/-! ## Names and the column lookup -/

theorem char_toNat_inj (a b : Char) (h : a.toNat = b.toNat) : a = b := by
  apply Char.ext
  apply UInt32.ext
  simpa [Char.toNat, UInt32.toNat] using h

/-- `strcasecmp` returns zero exactly on strings that are equal once every
character is mapped to lower case. -/
theorem strcasecmp_eq_zero_iff :
    ∀ (a b : CStr), strcasecmp a b = 0 ↔ a.map Char.toLower = b.map Char.toLower
  | [], [] => by simp [strcasecmp]
  | [], _ :: _ => by simp [strcasecmp]
  | _ :: _, [] => by simp [strcasecmp]
  | x :: xs, y :: ys => by
    by_cases h : x.toLower = y.toLower
    · simp [strcasecmp, h, strcasecmp_eq_zero_iff xs ys]
    · have hne : (x.toLower.toNat : Int) - (y.toLower.toNat : Int) ≠ 0 := by
        intro h0
        exact h (char_toNat_inj _ _ (by omega))
      simp [strcasecmp, h, hne]

theorem strcasecmp_self (a : CStr) : strcasecmp a a = 0 :=
  (strcasecmp_eq_zero_iff a a).mpr rfl

theorem in_ast_iff (name : CStr) (cols : List COLUMN) :
    in_ast name cols = true ↔
      ∃ r ∈ cols, name.map Char.toLower = r.name.map Char.toLower := by
  simp [in_ast, strcasecmp_eq_zero_iff]

theorem findColumnFrom_append (table name : CStr) (post : List RSColumn) :
    ∀ (pre : List RSColumn) (pos : Int),
      (∀ c ∈ pre, ¬ (strcasecmp c.tableName table = 0 ∧ strcasecmp c.colName name = 0)) →
      findColumnFrom table name (pre ++ post) pos =
        findColumnFrom table name post (pos + (pre.length : Int))
  | [], pos, _ => by simp
  | c :: pre, pos, h => by
    have hc := h c (List.mem_cons_self _ _)
    have ih := findColumnFrom_append table name post pre (pos + 1)
      (fun c' hc' => h c' (List.mem_cons_of_mem _ hc'))
    show findColumnFrom table name (c :: (pre ++ post)) pos = _
    rw [findColumnFrom, if_neg hc, ih, List.length_cons]
    congr 1
    push_cast
    ring


/-! ## The column projector -/

theorem in_ast_eq_requestedName (name : CStr) (cols : List COLUMN) :
    in_ast name cols = requestedName cols name := by
  simp only [in_ast, requestedName, sameNameIgnoringCase]
  congr 1
  funext r
  simp only [strcasecmp_eq_zero_iff]

theorem findColumn_one (rs : ResultSet) (table name : CStr) :
    resultset_findColumn rs 1 table name = findColumnFrom table name rs.columns 1 := by
  simp [resultset_findColumn]

/-- The lookup of a name that no column in front carries finds the column
behind them. -/
theorem findColumn_skip (pre post : List RSColumn) (c : RSColumn) (n : Nat) (table name : CStr)
    (hpre : ∀ c0 ∈ pre, strcasecmp c0.colName name ≠ 0)
    (ht : strcasecmp c.tableName table = 0) (hn : strcasecmp c.colName name = 0) :
    resultset_findColumn { columns := pre ++ c :: post, numRows := n } 1 table name =
      (pre.length : Int) + 1 := by
  rw [findColumn_one]
  show findColumnFrom table name (pre ++ c :: post) 1 = _
  rw [findColumnFrom_append table name (c :: post) pre 1 (fun c0 h0 hh => hpre c0 h0 hh.2)]
  simp only [findColumnFrom, if_pos (And.intro ht hn)]
  ring

theorem deleteColumn_middle (pre post : List RSColumn) (c : RSColumn) (n : Nat) :
    resultset_deleteColumn { columns := pre ++ c :: post, numRows := n }
      ((pre.length : Int) + 1) = some { columns := pre ++ post, numRows := n } := by
  unfold resultset_deleteColumn
  have h : (1 : Int) ≤ (pre.length : Int) + 1 ∧
      (pre.length : Int) + 1 ≤ ((ResultSet.mk (pre ++ c :: post) n).numCols : Int) := by
    simp [ResultSet.numCols]
  rw [if_pos h]
  have e : ((pre.length : Int) + 1 - 1).toNat = pre.length := by omega
  simp only [e]
  congr 2
  rw [List.eraseIdx_append_of_length_le (Nat.le_refl _)]
  simp

/-- The invariant of the loop of `filter_col`: in front the columns already
visited and requested, behind them the columns of the catalog entries still
to visit. -/
theorem filter_col_loop_spec (tm : TableMeta) (select : SELECT) (n : Nat) :
    ∀ (rest : List ColumnMeta) (pre post : List RSColumn),
      (∀ c ∈ pre, requestedName select.columns c.colName = true) →
      post.map (fun c => (c.tableName, c.colName)) = rest.map (fun m => (tm.name, m.name)) →
      filter_col_loop tm select rest { columns := pre ++ post, numRows := n } =
        some { columns := pre ++ post.filter (fun c => requestedName select.columns c.colName),
               numRows := n }
  | [], pre, post, _, hpost => by
    have : post = [] := by simpa using hpost
    subst this
    simp [filter_col_loop]
  | m :: rest, pre, [], _, hpost => by simp at hpost
  | m :: rest, pre, c :: post, hpre, hpost => by
    simp only [List.map_cons, List.cons.injEq, Prod.mk.injEq] at hpost
    obtain ⟨⟨htab, hname⟩, hrest⟩ := hpost
    by_cases hin : in_ast m.name select.columns = true
    · have hreq : requestedName select.columns c.colName = true := by
        rw [hname, ← in_ast_eq_requestedName]; exact hin
      simp only [filter_col_loop, if_pos hin]
      have := filter_col_loop_spec tm select n rest (pre ++ [c]) post (by
        intro c0 h0
        rcases List.mem_append.mp h0 with h0 | h0
        · exact hpre c0 h0
        · simp only [List.mem_singleton] at h0
          rw [h0]; exact hreq) hrest
      simp only [List.append_assoc, List.singleton_append] at this
      rw [this]
      simp [List.filter_cons, hreq]
    · have hreq : ¬ requestedName select.columns c.colName = true := by
        rw [hname, ← in_ast_eq_requestedName]; exact hin
      have hfind : resultset_findColumn { columns := pre ++ c :: post, numRows := n } 1
          tm.name m.name = (pre.length : Int) + 1 := by
        apply findColumn_skip
        · intro c0 h0 hz
          apply hin
          have h1 := hpre c0 h0
          rw [← in_ast_eq_requestedName, in_ast_iff] at h1
          obtain ⟨r, hr, hr2⟩ := h1
          rw [in_ast_iff]
          refine ⟨r, hr, ?_⟩
          rw [← hr2]
          exact ((strcasecmp_eq_zero_iff _ _).mp hz).symm
        · rw [htab]; exact strcasecmp_self _
        · rw [hname]; exact strcasecmp_self _
      simp only [filter_col_loop, if_neg hin, hfind, deleteColumn_middle, Option.some_bind]
      rw [filter_col_loop_spec tm select n rest pre post hpre hrest]
      simp [List.filter_cons, hreq]

theorem filter_col_eq (tm : TableMeta) (select : SELECT) (rs : ResultSet)
    (hb : rs.BuiltFrom tm) :
    filter_col tm select rs =
      some { columns := rs.columns.filter (fun c => requestedName select.columns c.colName),
             numRows := rs.numRows } := by
  have h := filter_col_loop_spec tm select rs.numRows tm.columns [] rs.columns
    (by simp) (by
      have := congrArg (List.map fun t : CStr × CStr × Int => (t.1, t.2.1)) hb
      simpa [List.map_map, Function.comp_def] using this)
  simpa [filter_col] using h


/-- C3. Projection correctness: on the working table built from a catalog
entry, for every requested column list, `filter_col` completes and leaves
exactly the columns whose name equals, ignoring case, some requested name:
each such column once, with its values, in catalog order; the rows are not
touched. In terms of the catalog: the surviving names are the names of the
catalog columns so requested, in catalog order. -/
theorem filter_col_correct (tm : TableMeta) (select : SELECT) (rs : ResultSet)
    (hb : rs.BuiltFrom tm) :
    ∃ rs', filter_col tm select rs = some rs' ∧
      rs'.columns = rs.columns.filter (fun c => requestedName select.columns c.colName) ∧
      rs'.numRows = rs.numRows ∧
      rs'.columns.map (fun c => c.colName) =
        (tm.columns.filter (fun m => requestedName select.columns m.name)).map
          (fun m => m.name) := by
  refine ⟨_, filter_col_eq tm select rs hb, rfl, rfl, ?_⟩
  have hn : rs.columns.map (fun c => c.colName) = tm.columns.map (fun m => m.name) := by
    have := congrArg (List.map fun t : CStr × CStr × Int => t.2.1) hb
    simpa [List.map_map, Function.comp_def] using this
  have h1 : (rs.columns.filter (fun c => requestedName select.columns c.colName)).map
      (fun c => c.colName) =
      (rs.columns.map (fun c => c.colName)).filter (requestedName select.columns) := by
    rw [List.filter_map]; rfl
  have h2 : (tm.columns.filter (fun m => requestedName select.columns m.name)).map
      (fun m => m.name) =
      (tm.columns.map (fun m => m.name)).filter (requestedName select.columns) := by
    rw [List.filter_map]; rfl
  simp only [h1, h2, hn]

/-- The Employees table is the table built from its catalog entry. -/
theorem employees_builtFrom : employees.BuiltFrom employeesMeta := by
  unfold ResultSet.BuiltFrom
  decide

/-- C3, at a concrete input: the plan `SELECT id, name` on Employees. -/
theorem filter_col_correct_witness :
    ∃ rs', filter_col employeesMeta selectIdEq2 employees = some rs' ∧
      rs'.columns =
        employees.columns.filter (fun c => requestedName selectIdEq2.columns c.colName) ∧
      rs'.numRows = employees.numRows ∧
      rs'.columns.map (fun c => c.colName) =
        (employeesMeta.columns.filter (fun m => requestedName selectIdEq2.columns m.name)).map
          (fun m => m.name) :=
  filter_col_correct employeesMeta selectIdEq2 employees employees_builtFrom


/-! ## The column reorderer -/

theorem sameName_iff (a b : CStr) :
    sameNameIgnoringCase a b = true ↔ lowerName a = lowerName b := by
  simp [sameNameIgnoringCase, lowerName]

theorem strcasecmp_zero_iff_lower (a b : CStr) :
    strcasecmp a b = 0 ↔ lowerName a = lowerName b := by
  rw [strcasecmp_eq_zero_iff]; rfl

theorem requestedName_iff (cols : List COLUMN) (name : CStr) :
    requestedName cols name = true ↔ ∃ r ∈ cols, lowerName name = lowerName r.name := by
  simp [requestedName, sameName_iff]

theorem insertIdx_length_append {α : Type} (c : α) (rest : List α) :
    ∀ (done : List α), List.insertIdx done.length c (done ++ rest) = done ++ c :: rest
  | [] => by simp
  | x :: done => by
    simp [List.insertIdx_succ_cons, insertIdx_length_append c rest done]

/-- Moving a column forward: from behind `a` to the front of `a`. -/
theorem moveColumn_split (done a b : List RSColumn) (c : RSColumn) (n : Nat) :
    resultset_moveColumn { columns := done ++ (a ++ c :: b), numRows := n }
      ((done.length : Int) + (a.length : Int) + 1) ((done.length : Int) + 1) =
      some { columns := (done ++ [c]) ++ (a ++ b), numRows := n } := by
  unfold resultset_moveColumn
  have hcond : (1 : Int) ≤ (done.length : Int) + (a.length : Int) + 1 ∧
      (done.length : Int) + (a.length : Int) + 1 ≤
        ((ResultSet.mk (done ++ (a ++ c :: b)) n).numCols : Int) ∧
      (1 : Int) ≤ (done.length : Int) + 1 ∧
      (done.length : Int) + 1 ≤ ((ResultSet.mk (done ++ (a ++ c :: b)) n).numCols : Int) := by
    simp only [ResultSet.numCols, List.length_append, List.length_cons]
    push_cast
    omega
  rw [if_pos hcond]
  have e1 : ((done.length : Int) + (a.length : Int) + 1 - 1).toNat = (done ++ a).length := by
    simp only [List.length_append]; omega
  have e2 : ((done.length : Int) + 1 - 1).toNat = done.length := by omega
  simp only [e1, e2]
  have hget : (done ++ (a ++ c :: b)).get? (done ++ a).length = some c := by
    rw [← List.append_assoc, List.get?_eq_getElem?, List.getElem?_append_right (Nat.le_refl _)]
    simp
  have herase : (done ++ (a ++ c :: b)).eraseIdx (done ++ a).length = done ++ (a ++ b) := by
    rw [← List.append_assoc, List.eraseIdx_append_of_length_le (Nat.le_refl _)]
    simp
  rw [hget]
  simp only [herase]
  congr 2
  rw [insertIdx_length_append]
  simp

theorem reorder_col_loop_cons (T : CStr) (cur : COLUMN) (next : List COLUMN) (i : Int)
    (cols : List RSColumn) (n : Nat) (hne : cols ≠ [])
    (hT : ∀ c ∈ cols, c.tableName = T) :
    reorder_col_loop (cur :: next) i { columns := cols, numRows := n } =
      (resultset_moveColumn { columns := cols, numRows := n }
        (resultset_findColumn { columns := cols, numRows := n } 1 T cur.name) i).bind
        (reorder_col_loop next (i + 1)) := by
  cases cols with
  | nil => exact absurd rfl hne
  | cons first tl =>
    have := hT first (List.mem_cons_self _ _)
    simp only [reorder_col_loop, this]

/-- The invariant of the loop of `reorder_col`: in front the columns already
placed, behind them the others; each step takes the named column out of the
others and puts it behind the placed ones. -/
theorem reorder_col_loop_spec (T : CStr) (n : Nat) :
    ∀ (rest : List COLUMN) (done rem : List RSColumn),
      ((done ++ rem).map (fun c => lowerName c.colName)).Nodup →
      (∀ c ∈ done ++ rem, c.tableName = T) →
      (rest.map (fun r => lowerName r.name)).Nodup →
      (∀ r ∈ rest, ∃ c ∈ rem, lowerName c.colName = lowerName r.name) →
      reorder_col_loop rest ((done.length : Int) + 1) { columns := done ++ rem, numRows := n } =
        some { columns := done ++ (rest.filterMap (columnNamed rem) ++
                 rem.filter (fun c => !requestedName rest c.colName)),
               numRows := n }
  | [], done, rem, _, _, _, _ => by
    simp [reorder_col_loop, requestedName]
  | r :: rest, done, rem, hnd, hT, hrn, hex => by
    obtain ⟨c, hc, hcr⟩ := hex r (List.mem_cons_self _ _)
    obtain ⟨a, b, rfl⟩ := List.append_of_mem hc
    -- the column named by `r` is the only one of that name
    have hmid : ((done ++ (a ++ c :: b)).map (fun c => lowerName c.colName)) =
        (done ++ a).map (fun c => lowerName c.colName) ++
          lowerName c.colName :: b.map (fun c => lowerName c.colName) := by
      simp
    rw [hmid, List.nodup_middle, List.nodup_cons] at hnd
    obtain ⟨hcnot, hnd'⟩ := hnd
    have huniq : ∀ x ∈ done ++ (a ++ b), lowerName x.colName ≠ lowerName r.name := by
      intro x hx hxe
      apply hcnot
      rw [hcr, ← hxe, ← List.map_append]
      apply List.mem_map_of_mem
      simpa [List.append_assoc] using hx
    obtain ⟨hrnot, hrn'⟩ := List.nodup_cons.mp hrn
    have hcrest : ∀ r' ∈ rest, lowerName c.colName ≠ lowerName r'.name := by
      intro r' hr' he
      apply hrnot
      show lowerName r.name ∈ _
      rw [← hcr, he]
      exact List.mem_map_of_mem (fun r => lowerName r.name) hr'
    -- the lookup and the move
    have hfind : resultset_findColumn { columns := done ++ (a ++ c :: b), numRows := n } 1 T
        r.name = (done.length : Int) + (a.length : Int) + 1 := by
      have := findColumn_skip (done ++ a) b c n T r.name
        (fun c0 h0 hz => huniq c0 (by
            rcases List.mem_append.mp h0 with h | h
            · exact List.mem_append_left _ h
            · exact List.mem_append_right _ (List.mem_append_left _ h))
          ((strcasecmp_zero_iff_lower _ _).mp hz))
        (by rw [hT c (by simp)]; exact strcasecmp_self _)
        ((strcasecmp_zero_iff_lower _ _).mpr hcr)
      simpa [List.append_assoc] using this
    rw [reorder_col_loop_cons T r rest _ _ n (by simp) hT, hfind, moveColumn_split,
      Option.some_bind]
    have hlen : ((done.length : Int) + 1 + 1) = (((done ++ [c]).length : Nat) : Int) + 1 := by
      simp
    rw [hlen, reorder_col_loop_spec T n rest (done ++ [c]) (a ++ b)]
    · -- the two descriptions of the result agree
      have h1 : columnNamed (a ++ c :: b) r = some c := by
        unfold columnNamed
        rw [List.find?_append]
        have ha : a.find? (fun c => sameNameIgnoringCase c.colName r.name) = none := by
          rw [List.find?_eq_none]
          intro x hx hs
          exact huniq x (by simp [hx]) ((sameName_iff _ _).mp hs)
        rw [ha]
        simp [List.find?_cons, (sameName_iff _ _).mpr hcr]
      have h2 : rest.filterMap (columnNamed (a ++ c :: b)) =
          rest.filterMap (columnNamed (a ++ b)) := by
        apply List.filterMap_congr
        intro r' hr'
        unfold columnNamed
        rw [List.find?_append, List.find?_append, List.find?_cons]
        have : sameNameIgnoringCase c.colName r'.name = false := by
          rw [Bool.eq_false_iff]
          intro hs
          exact hcrest r' hr' ((sameName_iff _ _).mp hs)
        rw [this]
      have h3 : (a ++ c :: b).filter (fun x => !requestedName (r :: rest) x.colName) =
          (a ++ b).filter (fun x => !requestedName rest x.colName) := by
        have hcreq : requestedName (r :: rest) c.colName = true := by
          rw [requestedName_iff]; exact ⟨r, List.mem_cons_self _ _, hcr⟩
        have hother : ∀ x ∈ a ++ b,
            (!requestedName (r :: rest) x.colName) = (!requestedName rest x.colName) := by
          intro x hx
          have hx' : sameNameIgnoringCase x.colName r.name = false := by
            rw [Bool.eq_false_iff]
            intro hs
            exact huniq x (List.mem_append_right _ hx) ((sameName_iff _ _).mp hs)
          simp [requestedName, hx']
        rw [List.filter_append, List.filter_cons, hcreq]
        simp only [Bool.not_true, Bool.false_eq_true, if_false]
        rw [← List.filter_append]
        exact List.filter_congr hother
      simp only [List.filterMap_cons, h1, h2, h3, List.append_assoc, List.singleton_append,
        List.cons_append, List.nil_append]
    · have : (done ++ [c] ++ (a ++ b)).map (fun c => lowerName c.colName) =
          (done.map (fun c => lowerName c.colName)) ++ lowerName c.colName ::
            ((a ++ b).map (fun c => lowerName c.colName)) := by simp
      rw [this, List.nodup_middle, List.nodup_cons]
      refine ⟨?_, ?_⟩
      · simpa [List.append_assoc] using hcnot
      · simpa [List.append_assoc] using hnd'
    · intro x hx
      apply hT
      simp only [List.mem_append, List.mem_singleton, List.mem_cons] at hx ⊢
      tauto
    · exact hrn'
    · intro r' hr'
      obtain ⟨c', hc', hcr'⟩ := hex r' (List.mem_cons_of_mem _ hr')
      refine ⟨c', ?_, hcr'⟩
      simp only [List.mem_append, List.mem_cons] at hc' ⊢
      rcases hc' with h | h | h
      · exact Or.inl h
      · exact absurd (h ▸ hcr') (hcrest r' hr')
      · exact Or.inr h

theorem builtFrom_names {rs : ResultSet} {tm : TableMeta} (hb : rs.BuiltFrom tm) :
    rs.columns.map (fun c => c.colName) = tm.columns.map (fun m => m.name) := by
  have := congrArg (List.map fun t : CStr × CStr × Int => t.2.1) hb
  simpa [List.map_map, Function.comp_def] using this

theorem builtFrom_tableName {rs : ResultSet} {tm : TableMeta} (hb : rs.BuiltFrom tm) :
    ∀ c ∈ rs.columns, c.tableName = tm.name := by
  intro c hc
  have h1 : c.tableName ∈ rs.columns.map (fun c => c.tableName) :=
    List.mem_map_of_mem (fun c => c.tableName) hc
  have h2 : rs.columns.map (fun c => c.tableName) = tm.columns.map (fun _ => tm.name) := by
    have := congrArg (List.map fun t : CStr × CStr × Int => t.1) hb
    simpa [List.map_map, Function.comp_def] using this
  rw [h2] at h1
  simp only [List.mem_map] at h1
  obtain ⟨_, _, h⟩ := h1
  exact h.symm

theorem builtFrom_lowerNames {rs : ResultSet} {tm : TableMeta} (hb : rs.BuiltFrom tm) :
    rs.columns.map (fun c => lowerName c.colName) =
      tm.columns.map (fun m => lowerName m.name) := by
  have := congrArg (List.map lowerName) (builtFrom_names hb)
  simpa [List.map_map, Function.comp_def] using this

/-- A requested name that the catalog holds is the name of a column of the
table built from the catalog. -/
theorem builtFrom_exists {rs : ResultSet} {tm : TableMeta} (hb : rs.BuiltFrom tm) (r : COLUMN)
    (h : ∃ m ∈ tm.columns, lowerName m.name = lowerName r.name) :
    ∃ c ∈ rs.columns, lowerName c.colName = lowerName r.name := by
  obtain ⟨m, hm, hmr⟩ := h
  have h1 : lowerName m.name ∈ tm.columns.map (fun m => lowerName m.name) :=
    List.mem_map_of_mem (fun m => lowerName m.name) hm
  rw [← builtFrom_lowerNames hb] at h1
  simp only [List.mem_map] at h1
  obtain ⟨c, hc, hcm⟩ := h1
  exact ⟨c, hc, hcm.trans hmr⟩

theorem columnNamed_filter (cols : List RSColumn) (C : List COLUMN) (r : COLUMN) (hr : r ∈ C) :
    columnNamed (cols.filter fun c => requestedName C c.colName) r = columnNamed cols r := by
  unfold columnNamed
  rw [List.find?_filter]
  congr 1
  funext c
  by_cases h : sameNameIgnoringCase c.colName r.name = true
  · have : requestedName C c.colName = true :=
      (requestedName_iff _ _).mpr ⟨r, hr, (sameName_iff _ _).mp h⟩
    simp [h, this]
  · simp [h]

theorem columnNamed_names (cols : List RSColumn) :
    ∀ (l : List COLUMN), (∀ r ∈ l, ∃ c ∈ cols, lowerName c.colName = lowerName r.name) →
      (l.filterMap (columnNamed cols)).map (fun c => lowerName c.colName) =
        l.map (fun r => lowerName r.name)
  | [], _ => rfl
  | r :: l, h => by
    obtain ⟨c, hc, hcr⟩ := h r (List.mem_cons_self _ _)
    have ih := columnNamed_names cols l (fun r' hr' => h r' (List.mem_cons_of_mem _ hr'))
    cases hf : columnNamed cols r with
    | none =>
      unfold columnNamed at hf
      rw [List.find?_eq_none] at hf
      exact absurd ((sameName_iff _ _).mpr hcr) (hf c hc)
    | some c' =>
      have hp : sameNameIgnoringCase c'.colName r.name = true := by
        unfold columnNamed at hf
        exact @List.find?_some _ (fun c => sameNameIgnoringCase c.colName r.name) c' cols hf
      simp only [List.filterMap_cons, hf, List.map_cons, ih, (sameName_iff _ _).mp hp]

/-- Projection followed by reordering, for a validated column list without
repeated names: the columns of the table that the list names, in list
order. -/
theorem filter_reorder_eq (tm : TableMeta) (select : SELECT) (rs : ResultSet)
    (hb : rs.BuiltFrom tm)
    (hcat : (tm.columns.map (fun m => lowerName m.name)).Nodup)
    (hC : (select.columns.map (fun r => lowerName r.name)).Nodup)
    (hsub : ∀ r ∈ select.columns, ∃ m ∈ tm.columns, lowerName m.name = lowerName r.name) :
    (filter_col tm select rs).bind (reorder_col select) =
      some { columns := select.columns.filterMap (columnNamed rs.columns),
             numRows := rs.numRows } := by
  rw [filter_col_eq tm select rs hb, Option.some_bind]
  have hsubl : (rs.columns.filter fun c => requestedName select.columns c.colName).Sublist
      rs.columns := List.filter_sublist _
  have h := reorder_col_loop_spec tm.name rs.numRows select.columns []
    (rs.columns.filter fun c => requestedName select.columns c.colName)
    (by
      rw [List.nil_append]
      exact List.Nodup.sublist (hsubl.map _) (by rw [builtFrom_lowerNames hb]; exact hcat))
    (by
      intro c hc
      rw [List.nil_append] at hc
      exact builtFrom_tableName hb c (hsubl.subset hc))
    hC
    (by
      intro r hr
      obtain ⟨c, hc, hcr⟩ := builtFrom_exists hb r (hsub r hr)
      exact ⟨c, List.mem_filter.mpr ⟨hc, (requestedName_iff _ _).mpr ⟨r, hr, hcr⟩⟩, hcr⟩)
  simp only [List.length_nil, Nat.cast_zero, zero_add, List.nil_append] at h
  unfold reorder_col
  rw [h]
  congr 2
  have hleft : (rs.columns.filter fun c => requestedName select.columns c.colName).filter
      (fun c => !requestedName select.columns c.colName) = [] := by
    rw [List.filter_filter]
    simp
  rw [hleft, List.append_nil]
  apply List.filterMap_congr
  intro r hr
  exact columnNamed_filter rs.columns select.columns r hr


/-- C4, as stated, fails when a name is requested twice: for
`SELECT id, id` the projected table has the single column `id`, and
`filter_col` followed by `reorder_col` does not yield a table whose columns
are `[id, id]`. -/
theorem reorder_col_duplicate_counterexample :
    (filter_col employeesMeta selectIdId employees).map (fun t => t.columns.length) = some 1 ∧
    ¬ ∃ rs', (filter_col employeesMeta selectIdId employees).bind (reorder_col selectIdId)
        = some rs' ∧
      rs'.columns.map (fun c => c.colName) = selectIdId.columns.map (fun r => r.name) := by
  refine ⟨by decide, ?_⟩
  rw [show (filter_col employeesMeta selectIdId employees).bind (reorder_col selectIdId) = none
    by decide]
  simp

/-- C4, amended. Reorder correctness: for a catalog whose column names differ
ignoring case and a column list `[c1..ck]` of catalog names in which no name is
repeated (ignoring case), `filter_col` followed by `reorder_col` on the table
built from the catalog completes, and the live columns read in position
order are the table's columns named `c1 .. ck` in that order (their names
equal the list's names ignoring case), whatever the catalog order; the rows
are not touched. -/
theorem reorder_col_correct (tm : TableMeta) (select : SELECT) (rs : ResultSet)
    (hb : rs.BuiltFrom tm)
    (hcat : (tm.columns.map (fun m => lowerName m.name)).Nodup)
    (hC : (select.columns.map (fun r => lowerName r.name)).Nodup)
    (hsub : ∀ r ∈ select.columns, ∃ m ∈ tm.columns, lowerName m.name = lowerName r.name) :
    ∃ rs', (filter_col tm select rs).bind (reorder_col select) = some rs' ∧
      rs'.columns.map (fun c => lowerName c.colName) =
        select.columns.map (fun r => lowerName r.name) ∧
      rs'.columns = select.columns.filterMap (columnNamed rs.columns) ∧
      rs'.numRows = rs.numRows := by
  refine ⟨_, filter_reorder_eq tm select rs hb hcat hC hsub, ?_, rfl, rfl⟩
  exact columnNamed_names rs.columns select.columns
    (fun r hr => builtFrom_exists hb r (hsub r hr))

/-- C4 amended, at a concrete input: `SELECT salary, id` on Employees, against
catalog order. -/
theorem reorder_col_correct_witness :
    ∃ rs', (filter_col employeesMeta selectSalaryId employees).bind
        (reorder_col selectSalaryId) = some rs' ∧
      rs'.columns.map (fun c => lowerName c.colName) =
        selectSalaryId.columns.map (fun r => lowerName r.name) ∧
      rs'.columns = selectSalaryId.columns.filterMap (columnNamed employees.columns) ∧
      rs'.numRows = employees.numRows :=
  reorder_col_correct employeesMeta selectSalaryId employees employees_builtFrom
    (by decide) (by decide) (by decide)

/-! ## String comparison -/

theorem char_lt_iff_toNat (a b : Char) : a < b ↔ a.toNat < b.toNat := by
  rfl

theorem strcmp_eq_zero_iff : ∀ (a b : CStr), strcmp a b = 0 ↔ a = b
  | [], [] => by simp [strcmp]
  | [], _ :: _ => by simp [strcmp]
  | _ :: _, [] => by simp [strcmp]
  | x :: xs, y :: ys => by
    by_cases h : x = y
    · simp [strcmp, h, strcmp_eq_zero_iff xs ys]
    · have hne : (x.toNat : Int) - (y.toNat : Int) ≠ 0 := by
        intro h0
        exact h (char_toNat_inj _ _ (by omega))
      simp [strcmp, h, hne]

theorem strcmp_neg_iff : ∀ (a b : CStr), strcmp a b < 0 ↔ a < b
  | [], [] => by simp [strcmp]
  | [], y :: ys => by
    simp only [strcmp]
    exact ⟨fun _ => List.nil_lt_cons y ys, fun _ => by decide⟩
  | x :: xs, [] => by
    simp only [strcmp]
    constructor
    · intro h; exact absurd h (by decide)
    · intro h; exact absurd h (by simp)
  | x :: xs, y :: ys => by
    by_cases h : x = y
    · subst h
      simp only [strcmp, if_true]
      rw [strcmp_neg_iff xs ys]
      exact (List.Lex.cons_iff (r := (· < ·))).symm
    · simp only [strcmp, if_neg h]
      constructor
      · intro hlt
        exact List.Lex.rel ((char_lt_iff_toNat x y).mpr (by omega))
      · intro hlt
        cases hlt with
        | cons _ => exact absurd rfl h
        | rel hr => have := (char_lt_iff_toNat x y).mp hr; omega

theorem strcmp_pos_iff (a b : CStr) : strcmp a b > 0 ↔ b < a := by
  rcases lt_trichotomy a b with h | h | h
  · have h1 := (strcmp_neg_iff a b).mpr h
    exact ⟨fun h2 => by omega, fun h2 => absurd h (lt_asymm h2)⟩
  · have h1 := (strcmp_eq_zero_iff a b).mpr h
    subst h
    exact ⟨fun h2 => by omega, fun h2 => absurd h2 (lt_irrefl _)⟩
  · refine ⟨fun _ => h, fun _ => ?_⟩
    have h1 : ¬ strcmp a b < 0 := fun hh => lt_asymm h ((strcmp_neg_iff a b).mp hh)
    have h2 : ¬ strcmp a b = 0 := fun hh => by
      have := (strcmp_eq_zero_iff a b).mp hh
      subst this
      exact lt_irrefl _ h
    omega

theorem filter_reals_where_eq (rs : ResultSet) (e : EXPR) (col i : Int) (x : Rat)
    (hop : 0 ≤ e.operator ∧ e.operator ≤ 5)
    (hcell : cellAt rs i col = some (RSValue.real x)) :
    filter_reals_where rs e col i =
      if realHolds e.operator (atof e.value) (RSValue.real x) then some rs
      else resultset_deleteRow rs i := by
  have hops : e.operator = 0 ∨ e.operator = 1 ∨ e.operator = 2 ∨ e.operator = 3 ∨
      e.operator = 4 ∨ e.operator = 5 := by omega
  simp only [filter_reals_where, resultset_getReal, hcell, realHolds, opHolds]
  rcases hops with h | h | h | h | h | h <;> rw [h] <;> simp
  all_goals
    split
    all_goals
      rename_i hh
      first
        | rw [if_neg (not_lt.mpr hh)]
        | rw [if_neg (not_le.mpr hh)]
        | rw [if_pos (not_le.mp hh)]
        | rw [if_pos (not_lt.mp hh)]

theorem strings_filter_where_eq (rs : ResultSet) (e : EXPR) (col i : Int) (x : CStr)
    (hop : 0 ≤ e.operator ∧ e.operator ≤ 5)
    (hcell : cellAt rs i col = some (RSValue.str x)) :
    strings_filter_where rs e col i =
      if strHolds e.operator e.value (RSValue.str x) then some rs
      else resultset_deleteRow rs i := by
  have hops : e.operator = 0 ∨ e.operator = 1 ∨ e.operator = 2 ∨ e.operator = 3 ∨
      e.operator = 4 ∨ e.operator = 5 := by omega
  simp only [strings_filter_where, resultset_getString, hcell, strHolds, opHolds]
  have hlt := strcmp_neg_iff x e.value
  have heq := strcmp_eq_zero_iff x e.value
  have hgt := strcmp_pos_iff x e.value
  rcases lt_trichotomy x e.value with hc | hc | hc
  · have h1 : strcmp x e.value < 0 := hlt.mpr hc
    have h2 : ¬ e.value < x := lt_asymm hc
    have h3 : x ≠ e.value := ne_of_lt hc
    have h4 : x ≤ e.value := le_of_lt hc
    have h5 : ¬ e.value ≤ x := not_le.mpr hc
    have c1 : ¬ (strcmp x e.value > 0 ∨ strcmp x e.value = 0) := by omega
    have c2 : ¬ strcmp x e.value > 0 := by omega
    have c3 : strcmp x e.value < 0 ∨ strcmp x e.value = 0 := by omega
    have c4 : strcmp x e.value ≠ 0 := by omega
    rcases hops with h | h | h | h | h | h <;> rw [h] <;> simp [*]
  · have h1 : strcmp x e.value = 0 := heq.mpr hc
    have h2 : ¬ e.value < x := by rw [hc]; exact lt_irrefl _
    have h3 : ¬ x < e.value := by rw [hc]; exact lt_irrefl _
    have h4 : x ≤ e.value := le_of_eq hc
    have h5 : e.value ≤ x := le_of_eq hc.symm
    have h6 : (x = e.value) ↔ True := by simp [hc]
    clear hc hlt heq hgt
    rcases hops with h | h | h | h | h | h <;> rw [h] <;> simp [h1, h2, h3, h4, h5, h6]
  · have h1 : strcmp x e.value > 0 := hgt.mpr hc
    have h2 : ¬ x < e.value := lt_asymm hc
    have h3 : x ≠ e.value := (ne_of_lt hc).symm
    have h4 : e.value ≤ x := le_of_lt hc
    have h5 : ¬ x ≤ e.value := not_le.mpr hc
    have c1 : strcmp x e.value > 0 ∨ strcmp x e.value = 0 := by omega
    have c3 : ¬ (strcmp x e.value < 0 ∨ strcmp x e.value = 0) := by omega
    have c2 : ¬ strcmp x e.value < 0 := by omega
    have c4 : strcmp x e.value ≠ 0 := by omega
    rcases hops with h | h | h | h | h | h <;> rw [h] <;> simp [*]


/-! ## The filter on strings; the decoder -/

/-- C7. String filter: on a well-formed working table whose WHERE column has
declared type STRING, with a literal of kind STRING and any of the six
operators, `check_where` completes, keeps the columns, and leaves exactly the
rows whose string satisfies the operator against the literal in the
lexicographic order of the characters, in their original order; `strcmp`,
which decides, is zero only on identical strings (so two strings that differ
in letter case are not equal) and its sign is that order. -/
theorem check_where_string_filter (select : SELECT) (rs : ResultSet) (e : EXPR)
    (c : RSColumn) (hwf : rs.WellFormed) (hw : select.«where» = some e)
    (hkind : e.litType = STRING_LITERAL)
    (hop : 0 ≤ e.operator ∧ e.operator ≤ 5)
    (hcol : columnAt rs (resultset_findColumn rs 1 select.table e.column) = some c)
    (htype : c.coltype = COL_TYPE_STRING) :
    (∃ rs', check_where select rs = some rs' ∧ rs'.headers = rs.headers ∧
      rs'.rows = rs.rows.filter
        (rowHolds (resultset_findColumn rs 1 select.table e.column - 1).toNat
          (strHolds e.operator e.value)) ∧
      rs'.WellFormed) ∧
    (∀ a b : CStr, (strcmp a b = 0 ↔ a = b) ∧ (strcmp a b < 0 ↔ a < b) ∧
      (strcmp a b > 0 ↔ b < a)) := by
  refine ⟨?_, fun a b => ⟨strcmp_eq_zero_iff a b, strcmp_neg_iff a b, strcmp_pos_iff a b⟩⟩
  have hlen : ∀ c' ∈ rs.columns, c'.data.length = rs.numRows := fun c' h => (hwf c' h).1
  have hgood : ∀ v ∈ c.data, ∃ x, v = RSValue.str x := by
    intro v hv
    have := (hwf c (columnAt_mem hcol)).2 v hv
    rw [htype] at this
    cases v with
    | int x => simp [RSValue.typeCode, COL_TYPE_INT, COL_TYPE_STRING] at this
    | real x => simp [RSValue.typeCode, COL_TYPE_REAL, COL_TYPE_STRING] at this
    | str x => exact ⟨x, rfl⟩
  have hrun := check_where_eq_keepFirst select rs e c (strHolds e.operator e.value)
    (fun v => ∃ x, v = RSValue.str x) hlen hw hcol hgood (by
      intro t i v hcell hv
      obtain ⟨x, rfl⟩ := hv
      have h1 : ¬ (e.litType = 0 ∧ c.coltype = 1) := by
        rw [hkind]; simp [STRING_LITERAL]
      have h2 : ¬ (e.litType = 1 ∨ (e.litType = 0 ∧ c.coltype = 2)) := by
        rw [hkind]; simp [STRING_LITERAL]
      simp only [whereBody, if_neg h1, if_neg h2, if_pos hkind]
      exact strings_filter_where_eq t e _ i x hop hcell)
  obtain ⟨h1, h2, h3⟩ := keepFirst_spec rs _ c (strHolds e.operator e.value) hwf
    (columnAt_get hcol)
  exact ⟨_, hrun, h1, h2, h3⟩

/-- C7, at a concrete input: `name = 'alice'` on Employees keeps no row,
`Alice` and `alice` being different strings. -/
theorem check_where_string_filter_witness :
    ((∃ rs', check_where selectNameAlice employees = some rs' ∧
      rs'.headers = employees.headers ∧
      rs'.rows = employees.rows.filter
        (rowHolds (resultset_findColumn employees 1 selectNameAlice.table whereNameAlice.column
            - 1).toNat
          (strHolds whereNameAlice.operator whereNameAlice.value)) ∧
      rs'.WellFormed) ∧
    (∀ a b : CStr, (strcmp a b = 0 ↔ a = b) ∧ (strcmp a b < 0 ↔ a < b) ∧
      (strcmp a b > 0 ↔ b < a))) ∧
    (check_where selectNameAlice employees).map (fun t => t.numRows) = some 0 :=
  ⟨check_where_string_filter selectNameAlice employees whereNameAlice employeesName
    employees_wellFormed rfl rfl (by decide) rfl rfl, by decide⟩

/-- C5, at the failing input. The catalog has a REAL column in front of an
INTEGER column and the record writes 1.5 and 7. The REAL branch of
`read_dataset` scans to the string terminator instead of the field's space,
so the INTEGER column is decoded from what lies behind the terminator: with
nothing there the decoder does not complete, and with the stale bytes `99 `
there the row holds 99 instead of 7. A record whose only REAL column is the
last one (the two records of Employees) is decoded to the values written. -/
theorem read_dataset_real_first :
    (create_dataset realFirstMeta).bind
        (fun rs => read_dataset rs realFirstMeta realFirstRecord) = none ∧
    (create_dataset realFirstMeta).bind
        (fun rs => read_dataset rs realFirstMeta (realFirstRecord ++ "99 ".toList)) =
      some realFirstStale ∧
    (create_dataset employeesMeta).bind
        (readLoop employeesMeta 27 (employeesFile.length + 1) employeesFile) =
      some employees := by
  refine ⟨by decide, by decide, by decide⟩


/-! ## Running the projector twice -/

/-- C10. Unsupported query type: for every database and every plan whose kind
is not SELECT, whatever the file system holds, `execute_query` prints the
unsupported-operation message and returns normally; no file is opened and no
table is produced. The outcome does not depend on the database, the files
or the plan's content, so no table was resolved, no record decoded and no
stage run; in particular the call does not abort where the resolver or the
file open would. -/
theorem execute_query_unsupported (files : CStr → Option (List Char))
    (applyFunction : ResultSet → Int → Int → Option ResultSet)
    (db : Database) (query : QUERY) (h : query.queryType ≠ SELECT_QUERY) :
    execute_query files applyFunction (some db) (some query) = unsupportedOutcome := by
  simp only [execute_query, if_pos h, unsupportedOutcome]

/-- C10, at a concrete input: a plan of another kind on the database `Co`. -/
theorem execute_query_unsupported_witness :
    execute_query companyFiles noFunction (some companyDb) (some insertQuery) =
      unsupportedOutcome :=
  execute_query_unsupported companyFiles noFunction companyDb insertQuery (by decide)

/-! ## The filter for each pairing of literal and column; rows of a projection -/

/-- The loop of `create_dataset` appends the fresh columns of the catalog
columns still to visit. -/
theorem create_dataset_loop_eq (tm : TableMeta) :
    ∀ (rest : List ColumnMeta) (done : List RSColumn),
      create_dataset_loop tm rest done.length { columns := done, numRows := 0 } =
        some { columns := done ++ rest.map (freshColumn tm), numRows := 0 }
  | [], done => by simp [create_dataset_loop]
  | m :: rest, done => by
    have hins : resultset_insertColumn { columns := done, numRows := 0 } ((done.length : Int) + 1)
        tm.name m.name NO_FUNCTION m.colType =
        some ({ columns := done ++ [freshColumn tm m], numRows := 0 }, (done.length : Int) + 1) := by
      unfold resultset_insertColumn
      have hc : (1 : Int) ≤ (done.length : Int) + 1 ∧
          (done.length : Int) + 1 ≤ ((ResultSet.mk done 0).numCols : Int) + 1 := by
        simp [ResultSet.numCols]
      rw [if_pos hc]
      have e : ((done.length : Int) + 1 - 1).toNat = done.length := by omega
      simp only [e, List.replicate_zero]
      congr 3
      rw [List.insertIdx_length_self]
      rfl
    have ih := create_dataset_loop_eq tm rest (done ++ [freshColumn tm m])
    simp only [List.length_append, List.length_singleton] at ih
    simp only [create_dataset_loop, hins, Option.some_bind, ih]
    simp

theorem create_dataset_eq (tm : TableMeta) : create_dataset tm = some (freshTable tm) := by
  have := create_dataset_loop_eq tm tm.columns []
  simpa [create_dataset, resultset_create, freshTable] using this

theorem freshTable_wellFormed (tm : TableMeta) : (freshTable tm).WellFormed := by
  intro c hc
  simp only [freshTable, List.mem_map] at hc
  obtain ⟨m, _, rfl⟩ := hc
  simp [freshTable, freshColumn]

/-- C16. Initial working table: for every table metadata with K columns,
`create_dataset` completes and returns a table with zero rows and exactly K
columns; the column at position `i` carries the name and declared type of
the catalog's `i`-th column, the table's name as qualifier, the tag
NO_FUNCTION and no values; the live positions are exactly `1 .. K`. -/
theorem create_dataset_initial (tm : TableMeta) :
    ∃ rs, create_dataset tm = some rs ∧ rs.numRows = 0 ∧ rs.numCols = tm.numColumns ∧
      rs.columns = tm.columns.map (freshColumn tm) ∧
      (∀ (i : Nat) (m : ColumnMeta), tm.columns.get? i = some m →
        ∃ c, columnAt rs ((i : Int) + 1) = some c ∧ c.colName = m.name ∧
          c.coltype = m.colType ∧ c.tableName = tm.name ∧ c.function = NO_FUNCTION ∧
          c.data = []) ∧
      (∀ pos : Int, (columnAt rs pos).isSome ↔ 1 ≤ pos ∧ pos ≤ (tm.numColumns : Int)) := by
  refine ⟨freshTable tm, create_dataset_eq tm, rfl, ?_, rfl, ?_, ?_⟩
  · simp [ResultSet.numCols, freshTable, TableMeta.numColumns]
  · intro i m hm
    refine ⟨freshColumn tm m, ?_, rfl, rfl, rfl, rfl, rfl⟩
    have e : ((i : Int) + 1 - 1).toNat = i := by omega
    have h1 : (1 : Int) ≤ (i : Int) + 1 := by omega
    simp only [columnAt, if_pos h1, e, freshTable, List.get?_eq_getElem?, List.getElem?_map]
    rw [List.get?_eq_getElem?] at hm
    rw [hm]; rfl
  · intro pos
    unfold columnAt
    by_cases h1 : 1 ≤ pos
    · rw [if_pos h1]
      simp only [freshTable, List.get?_eq_getElem?, List.getElem?_map, Option.isSome_map',
        TableMeta.numColumns]
      rw [Option.isSome_iff_exists]
      constructor
      · rintro ⟨a, ha⟩
        have := (List.getElem?_eq_some_iff.mp ha).1
        exact ⟨h1, by omega⟩
      · intro h
        have hlt : (pos - 1).toNat < tm.columns.length := by omega
        exact ⟨_, List.getElem?_eq_getElem hlt⟩
    · rw [if_neg h1]
      simp [h1]


/-! ## The unmatched filter, the resolver and the function applier -/

theorem loopDown_of_no_op (body : ResultSet → Int → Option ResultSet) (lo : Int)
    (h : ∀ t i, body t i = some t) : ∀ (k : Nat) (rs : ResultSet), loopDown body lo k rs = some rs
  | 0, _ => rfl
  | k + 1, rs => by
    simp only [loopDown, h, Option.some_bind]
    exact loopDown_of_no_op body lo h k rs

/-- C19. Unmatched type combination: when the WHERE literal has kind INTEGER
and the WHERE column has declared type STRING, none of the three branches of
the row loop of `check_where` applies, at any row and on any table, so the
loop deletes nothing: `check_where` completes and returns the working table
unchanged, whatever the operator and the literal's value. -/
theorem check_where_unmatched (select : SELECT) (rs : ResultSet) (e : EXPR) (c : RSColumn)
    (hw : select.«where» = some e) (hkind : e.litType = INTEGER_LITERAL)
    (hcol : columnAt rs (resultset_findColumn rs 1 select.table e.column) = some c)
    (htype : c.coltype = COL_TYPE_STRING) :
    check_where select rs = some rs ∧
    (∀ (t : ResultSet) (i : Int),
      whereBody e (resultset_findColumn rs 1 select.table e.column) c.coltype t i = some t) := by
  have hbody : ∀ (t : ResultSet) (i : Int),
      whereBody e (resultset_findColumn rs 1 select.table e.column) c.coltype t i = some t := by
    intro t i
    have h1 : ¬ (e.litType = 0 ∧ c.coltype = 1) := by rw [htype]; simp [COL_TYPE_STRING]
    have h2 : ¬ (e.litType = 1 ∨ (e.litType = 0 ∧ c.coltype = 2)) := by
      rw [hkind, htype]; simp [INTEGER_LITERAL, COL_TYPE_STRING]
    have h3 : ¬ e.litType = STRING_LITERAL := by
      rw [hkind]; simp [INTEGER_LITERAL, STRING_LITERAL]
    simp only [whereBody, if_neg h1, if_neg h2, if_neg h3]
  refine ⟨?_, hbody⟩
  unfold check_where
  rw [hw]
  simp only [colTypeAt_of_columnAt rs _ c hcol]
  exact loopDown_of_no_op _ 1 hbody rs.numRows rs

/-- C19, at a concrete input: `name = 5` on Employees. -/
theorem check_where_unmatched_witness :
    check_where selectNameEq5 employees = some employees ∧
    (∀ (t : ResultSet) (i : Int),
      whereBody whereNameEq5
        (resultset_findColumn employees 1 selectNameEq5.table whereNameEq5.column)
        employeesName.coltype t i = some t) :=
  check_where_unmatched selectNameEq5 employees whereNameEq5 employeesName rfl rfl
    (by decide) rfl

theorem findTable_eq_find (table : CStr) :
    ∀ (tables : List TableMeta),
      findTable table tables = tables.find? (fun t => sameNameIgnoringCase t.name table)
  | [] => rfl
  | t :: rest => by
    by_cases h : icmpStrings t.name table = 0
    · have h' : sameNameIgnoringCase t.name table = true :=
        (sameName_iff _ _).mpr ((strcasecmp_zero_iff_lower _ _).mp h)
      simp [findTable, h, List.find?_cons, h']
    · have h' : sameNameIgnoringCase t.name table = false := by
        rw [Bool.eq_false_iff]
        intro hs
        exact h ((strcasecmp_zero_iff_lower _ _).mpr ((sameName_iff _ _).mp hs))
      simp only [findTable, if_neg h, List.find?_cons, h']
      exact findTable_eq_find table rest

/-- C17. Table resolver: for a SELECT query the scan of `execute_query` selects
the first table, in database order, whose name equals the plan's table name
ignoring case. If such a table exists the assertion is passed: the
execution goes on and opens the data file of that table. If none exists the
assertion stops the process: nothing is opened and nothing is printed. -/
theorem execute_query_resolver (files : CStr → Option (List Char))
    (applyFunction : ResultSet → Int → Int → Option ResultSet)
    (db : Database) (query : QUERY) (hq : query.queryType = SELECT_QUERY) :
    findTable query.select.table db.tables =
      db.tables.find? (fun t => sameNameIgnoringCase t.name query.select.table) ∧
    ((∃ t ∈ db.tables, sameNameIgnoringCase t.name query.select.table = true) →
      ∃ tm, findTable query.select.table db.tables = some tm ∧
        (execute_query files applyFunction (some db) (some query)).opened = [dataPath db tm]) ∧
    ((∀ t ∈ db.tables, sameNameIgnoringCase t.name query.select.table = false) →
      execute_query files applyFunction (some db) (some query) = assertionOutcome) := by
  have hfind := findTable_eq_find query.select.table db.tables
  have hq' : ¬ query.queryType ≠ SELECT_QUERY := fun h => h hq
  refine ⟨hfind, ?_, ?_⟩
  · rintro ⟨t, ht, hs⟩
    cases hf : findTable query.select.table db.tables with
    | none =>
      rw [hfind, List.find?_eq_none] at hf
      exact absurd hs (hf t ht)
    | some tm =>
      refine ⟨tm, rfl, ?_⟩
      simp only [execute_query, if_neg hq', hf, dataPath]
      cases files (db.name ++ "/".toList ++ tm.name ++ ".data".toList) with
      | none => rfl
      | some datafile =>
        simp only []
        split
        · rfl
        · split <;> rfl
  · intro hall
    have hf : findTable query.select.table db.tables = none := by
      rw [hfind, List.find?_eq_none]
      intro t ht
      rw [hall t ht]
      simp
    simp only [execute_query, if_neg hq', hf, assertionOutcome]

/-- C17, at a concrete input: the plan names `employees`, the database holds
`Employees`; the scan selects it. -/
theorem execute_query_resolver_witness :
    (findTable queryIdEq2.select.table companyDb.tables =
      companyDb.tables.find? (fun t => sameNameIgnoringCase t.name queryIdEq2.select.table) ∧
    ((∃ t ∈ companyDb.tables, sameNameIgnoringCase t.name queryIdEq2.select.table = true) →
      ∃ tm, findTable queryIdEq2.select.table companyDb.tables = some tm ∧
        (execute_query companyFiles noFunction (some companyDb) (some queryIdEq2)).opened =
          [dataPath companyDb tm]) ∧
    ((∀ t ∈ companyDb.tables, sameNameIgnoringCase t.name queryIdEq2.select.table = false) →
      execute_query companyFiles noFunction (some companyDb) (some queryIdEq2) =
        assertionOutcome)) ∧
    findTable queryIdEq2.select.table companyDb.tables = some employeesMeta :=
  ⟨execute_query_resolver companyFiles noFunction companyDb queryIdEq2 rfl, by decide⟩


theorem app_func_loop_eq_applyCalls (applyFunction : ResultSet → Int → Int → Option ResultSet) :
    ∀ (cols : List COLUMN) (i : Int) (rs : ResultSet),
      app_func_loop applyFunction cols i rs =
        applyCalls applyFunction (app_func_calls cols i) rs
  | [], _, _ => rfl
  | cur :: next, i, rs => by
    by_cases h : cur.function ≠ NO_FUNCTION
    · simp only [app_func_loop, app_func_calls, if_pos h, applyCalls]
      cases applyFunction rs cur.function i with
      | none => rfl
      | some rs' =>
        simp only [Option.some_bind]
        exact app_func_loop_eq_applyCalls applyFunction next (i + 1) rs'
    · simp only [app_func_loop, app_func_calls, if_neg h]
      exact app_func_loop_eq_applyCalls applyFunction next (i + 1) rs

theorem app_func_calls_eq_enumFrom :
    ∀ (cols : List COLUMN) (k : Nat),
      app_func_calls cols ((k : Int) + 1) =
        ((cols.enumFrom k).filter fun p => decide (p.2.function ≠ NO_FUNCTION)).map
          fun p => (p.2.function, (p.1 : Int) + 1)
  | [], _ => rfl
  | cur :: next, k => by
    have ih := app_func_calls_eq_enumFrom next (k + 1)
    have e : ((k : Int) + 1 + 1) = (((k + 1 : Nat) : Int) + 1) := by push_cast; ring
    by_cases h : cur.function ≠ NO_FUNCTION
    · simp only [app_func_calls, if_pos h, List.enumFrom_cons, List.filter_cons, decide_eq_true h,
        if_true, List.map_cons, e, ih]
    · simp only [app_func_calls, if_neg h, List.enumFrom_cons, List.filter_cons,
        decide_eq_false h, e, ih]
      simp

theorem app_func_calls_ge :
    ∀ (cols : List COLUMN) (i : Int), ∀ p ∈ app_func_calls cols i, i ≤ p.2
  | [], _, p, hp => by simp [app_func_calls] at hp
  | cur :: next, i, p, hp => by
    by_cases h : cur.function ≠ NO_FUNCTION
    · simp only [app_func_calls, if_pos h, List.mem_cons] at hp
      rcases hp with hp | hp
      · rw [hp]
      · have := app_func_calls_ge next (i + 1) p hp
        omega
    · simp only [app_func_calls, if_neg h] at hp
      have := app_func_calls_ge next (i + 1) p hp
      omega

theorem app_func_calls_increasing :
    ∀ (cols : List COLUMN) (i : Int),
      (app_func_calls cols i).Pairwise (fun a b => a.2 < b.2)
  | [], _ => List.Pairwise.nil
  | cur :: next, i => by
    by_cases h : cur.function ≠ NO_FUNCTION
    · simp only [app_func_calls, if_pos h, List.pairwise_cons]
      refine ⟨?_, app_func_calls_increasing next (i + 1)⟩
      intro p hp
      have := app_func_calls_ge next (i + 1) p hp
      show i < p.2
      omega
    · simp only [app_func_calls, if_neg h]
      exact app_func_calls_increasing next (i + 1)

/-- C12. Function applier: whatever the container's function applier does,
`app_func` hands it exactly the requests `app_func_calls`, one after the
other (a request that does not complete ends the run). These requests are,
in increasing order of position, one request (f, i) for each entry number `i`
of the column list whose tag `f` is not NO_FUNCTION, and none for the entries
tagged NO_FUNCTION. If every tag is NO_FUNCTION there is no request and the
working table is returned unchanged. -/
theorem app_func_requests (applyFunction : ResultSet → Int → Int → Option ResultSet)
    (select : SELECT) (rs : ResultSet) :
    app_func applyFunction select rs =
      applyCalls applyFunction (app_func_calls select.columns 1) rs ∧
    app_func_calls select.columns 1 = taggedEntries select.columns ∧
    (∀ (f pos : Int), (f, pos) ∈ app_func_calls select.columns 1 ↔
      ∃ (k : Nat) (c : COLUMN), select.columns.get? k = some c ∧ c.function = f ∧
        f ≠ NO_FUNCTION ∧ pos = (k : Int) + 1) ∧
    (app_func_calls select.columns 1).Pairwise (fun a b => a.2 < b.2) ∧
    ((∀ c ∈ select.columns, c.function = NO_FUNCTION) →
      app_func_calls select.columns 1 = [] ∧ app_func applyFunction select rs = some rs) := by
  have hcalls : app_func_calls select.columns 1 = taggedEntries select.columns := by
    have := app_func_calls_eq_enumFrom select.columns 0
    simpa [taggedEntries, List.enum] using this
  have hrun := app_func_loop_eq_applyCalls applyFunction select.columns 1 rs
  refine ⟨hrun, hcalls, ?_, app_func_calls_increasing _ _, ?_⟩
  · intro f pos
    rw [hcalls]
    simp only [taggedEntries, List.mem_map, List.mem_filter, decide_eq_true_eq, Prod.exists,
      Prod.mk.injEq, List.mk_mem_enum_iff_getElem?, List.get?_eq_getElem?]
    constructor
    · rintro ⟨k, c, ⟨hk, hne⟩, hf, hp⟩
      exact ⟨k, c, hk, hf, hf ▸ hne, hp.symm⟩
    · rintro ⟨k, c, hk, hf, hne, hp⟩
      exact ⟨k, c, ⟨hk, hf ▸ hne⟩, hf, hp.symm⟩
  · intro hall
    have hnil : app_func_calls select.columns 1 = [] := by
      rw [hcalls]
      simp only [taggedEntries, List.map_eq_nil_iff, List.filter_eq_nil_iff, decide_eq_true_eq,
        not_not]
      intro p hp
      exact hall p.2 (List.snd_mem_of_mem_enum hp)
    refine ⟨hnil, ?_⟩
    show app_func_loop applyFunction select.columns 1 rs = some rs
    rw [hrun, hnil]
    rfl


/-! ## The record decoder, field by field -/

theorem scanFor_append (stop : Char) (post : List Char) :
    ∀ (body : List Char) (pos : Nat), stop ∉ body →
      scanFor stop (body ++ stop :: post) pos = some (pos + body.length)
  | [], pos, _ => by simp [scanFor]
  | c :: body, pos, h => by
    have hc : ¬ c = stop := fun e => h (e ▸ List.mem_cons_self _ _)
    have hb : stop ∉ body := fun hm => h (List.mem_cons_of_mem _ hm)
    show scanFor stop (c :: (body ++ stop :: post)) pos = _
    rw [scanFor, if_neg hc, scanFor_append stop post body (pos + 1) hb, List.length_cons]
    exact congrArg some (by omega)

theorem set_middle {α : Type} (pre field post : List α) (d x : α) :
    (pre ++ (field ++ d :: post)).set (pre.length + field.length) x =
      pre ++ (field ++ x :: post) := by
  rw [← List.append_assoc, ← List.append_assoc, ← List.length_append]
  rw [List.set_append_right _ _ (Nat.le_refl _)]
  simp

theorem cstringAt_field (pre field post : List Char) (hn : NUL ∉ field) :
    cstringAt (pre ++ (field ++ NUL :: post)) pre.length = field := by
  unfold cstringAt
  rw [List.drop_left]
  induction field with
  | nil => simp [List.takeWhile]
  | cons c field ih =>
    have hc : c ≠ NUL := fun e => hn (e ▸ List.mem_cons_self _ _)
    simp only [List.cons_append, List.takeWhile_cons, hc, ne_eq, not_false_eq_true, decide_True,
      if_true]
    rw [ih (fun hm => hn (List.mem_cons_of_mem _ hm))]

/-- Storing a value in a live cell of a column of the right type completes, and
the cell then holds the value. -/
theorem putCell_spec (rs : ResultSet) (row col : Int) (t : Int) (v : RSValue) (c : RSColumn)
    (hrow : 1 ≤ row ∧ row ≤ (rs.numRows : Int)) (hcol : columnAt rs col = some c)
    (htype : c.coltype = t) (hlen : c.data.length = rs.numRows) :
    ∃ rs', putCell rs row col t v = some rs' ∧ cellAt rs' row col = some v ∧
      rs'.numRows = rs.numRows := by
  have hget := columnAt_get hcol
  have h1 : 1 ≤ col := by
    unfold columnAt at hcol
    by_contra hc
    rw [if_neg hc] at hcol
    cases hcol
  have hidx : (col - 1).toNat < rs.columns.length := by
    rw [List.get?_eq_getElem?] at hget
    exact (List.getElem?_eq_some_iff.mp hget).1
  have hput : putCell rs row col t v = some (ResultSet.mk
      (rs.columns.set (col - 1).toNat (RSColumn.mk c.tableName c.colName c.function c.coltype
        (c.data.set (row - 1).toNat v))) rs.numRows) := by
    simp only [putCell, if_pos hrow, hcol, if_pos htype]
  refine ⟨_, hput, ?_, rfl⟩
  · simp only [cellAt]
    rw [if_pos hrow]
    simp only [columnAt, if_pos h1, List.get?_eq_getElem?, List.getElem?_set_self hidx,
      Option.some_bind]
    rw [List.getElem?_set_self (by omega)]


theorem isDigit_toNat (c : Char) (h : c.isDigit = true) : 48 ≤ c.toNat ∧ c.toNat ≤ 57 := by
  simp only [Char.isDigit, Bool.and_eq_true, decide_eq_true_eq] at h
  exact h

theorem isDigit_ne (c d : Char) (h : c.isDigit = true) (hd : d.isDigit = false) : c ≠ d := by
  intro e
  rw [e, hd] at h
  cases h

theorem isDigit_not_space (c : Char) (h : c.isDigit = true) : isspace c = false := by
  have hb := isDigit_toNat c h
  have h1 : c ≠ ' ' := isDigit_ne c _ h (by decide)
  have h2 : c ≠ '\t' := isDigit_ne c _ h (by decide)
  have h3 : c ≠ '\n' := isDigit_ne c _ h (by decide)
  have h4 : c ≠ '\r' := isDigit_ne c _ h (by decide)
  have h5 : c.toNat ≠ 11 := by omega
  have h6 : c.toNat ≠ 12 := by omega
  simp [isspace, h1, h2, h3, h4, h5, h6]

theorem scanDigits_digits :
    ∀ (ds : CStr) (acc : Nat), (∀ c ∈ ds, c.isDigit = true) →
      scanDigits acc ds =
        (acc * 10 ^ ds.length + Nat.ofDigits 10 (ds.reverse.map digitValue), [])
  | [], acc, _ => by simp [scanDigits]
  | c :: ds, acc, h => by
    have hc := h c (List.mem_cons_self _ _)
    have ih := scanDigits_digits ds (acc * 10 + (c.toNat - 48))
      (fun c' hc' => h c' (List.mem_cons_of_mem _ hc'))
    simp only [scanDigits, hc, if_true, ih, List.reverse_cons, List.map_append, List.map_cons,
      List.map_nil, Nat.ofDigits_append, List.length_map, List.length_reverse, List.length_cons,
      Nat.ofDigits_singleton, digitValue, Prod.mk.injEq, and_true]
    ring


theorem scanSign_digit (c : Char) (cs : CStr) (h : c.isDigit = true) :
    scanSign (c :: cs) = (false, c :: cs) := by
  have h1 : c ≠ '-' := isDigit_ne c _ h (by decide)
  have h2 : c ≠ '+' := isDigit_ne c _ h (by decide)
  unfold scanSign
  split
  · rename_i heq
    simp only [List.cons.injEq] at heq
    exact absurd heq.1 h1
  · rename_i heq
    simp only [List.cons.injEq] at heq
    exact absurd heq.1 h2
  · rfl

theorem dropWhile_isspace_digit (c : Char) (cs : CStr) (h : isspace c = false) :
    (c :: cs).dropWhile isspace = c :: cs := by
  simp [List.dropWhile, h]

/-- `atoi` reads the base-10 text of an `int` back as that `int`. -/
theorem atoi_intText (field : CStr) (n : Int) (h : IsIntText field n)
    (hr : -2147483648 ≤ n ∧ n ≤ 2147483647) : atoi field = n := by
  obtain ⟨ds, hne, hdig, hcase⟩ := h
  obtain ⟨c, ds', rfl⟩ := List.exists_cons_of_ne_nil hne
  have hc := hdig c (List.mem_cons_self _ _)
  have hscan := scanDigits_digits (c :: ds') 0 hdig
  simp only [Nat.zero_mul, Nat.zero_add] at hscan
  rcases hcase with ⟨hf | hf, hn⟩ | ⟨hf, hn⟩
  · subst hf
    simp only [atoi, dropWhile_isspace_digit c ds' (isDigit_not_space c hc), scanSign_digit c ds' hc,
      hscan]
    rw [← hn]
    exact wrap32_of_range n hr
  · subst hf
    have hs : ('+' :: c :: ds').dropWhile isspace = '+' :: c :: ds' := by
      apply dropWhile_isspace_digit; decide
    have hsign : scanSign ('+' :: c :: ds') = (false, c :: ds') := rfl
    simp only [atoi, hs, hsign, hscan]
    rw [← hn]
    exact wrap32_of_range n hr
  · subst hf
    have hs : ('-' :: c :: ds').dropWhile isspace = '-' :: c :: ds' := by
      apply dropWhile_isspace_digit; decide
    have hsign : scanSign ('-' :: c :: ds') = (true, c :: ds') := rfl
    simp only [atoi, hs, hsign, hscan, if_true]
    rw [← hn]
    exact wrap32_of_range n hr

theorem intText_no_stop (field : CStr) (n : Int) (h : IsIntText field n) :
    ' ' ∉ field ∧ NUL ∉ field := by
  obtain ⟨ds, _, hdig, hcase⟩ := h
  have hd1 : ' ' ∉ ds := fun hm => absurd (hdig _ hm) (by decide)
  have hd2 : NUL ∉ ds := fun hm => absurd (hdig _ hm) (by decide)
  rcases hcase with ⟨hf | hf, _⟩ | ⟨hf, _⟩
  · subst hf; exact ⟨hd1, hd2⟩
  · subst hf
    constructor
    · intro hm
      rcases List.mem_cons.mp hm with h | h
      · exact absurd h (by decide)
      · exact hd1 h
    · intro hm
      rcases List.mem_cons.mp hm with h | h
      · exact absurd h (by decide)
      · exact hd2 h
  · subst hf
    constructor
    · intro hm
      rcases List.mem_cons.mp hm with h | h
      · exact absurd h (by decide)
      · exact hd1 h
    · intro hm
      rcases List.mem_cons.mp hm with h | h
      · exact absurd h (by decide)
      · exact hd2 h

/-- C13. STRING field decoding: when the field of a STRING column starts at
the cursor with an opening quote `q` (`"` or `'`), followed by a body of text
without `q`, followed by a closing `q`, the decoder completes, stores exactly
the body as the column's value in the new row (the body may hold the other
quote character and spaces) and leaves both cursors two characters past the
position of the closing quote. -/
theorem decodeField_quoted (rowPos : Int) (i : Nat) (st : DecodeState)
    (pre body post : List Char) (q : Char) (c : RSColumn)
    (hq : q = '"' ∨ q = '\'')
    (hbuf : st.buf = pre ++ q :: (body ++ q :: post)) (hend : st.end_ = pre.length)
    (hbody : q ∉ body) (hnul : NUL ∉ body)
    (hrow : 1 ≤ rowPos ∧ rowPos ≤ (st.rs.numRows : Int))
    (hcol : columnAt st.rs ((i : Int) + 1) = some c) (htype : c.coltype = COL_TYPE_STRING)
    (hlen : c.data.length = st.rs.numRows) :
    ∃ st', decodeField rowPos i COL_TYPE_STRING st = some st' ∧
      cellAt st'.rs rowPos ((i : Int) + 1) = some (RSValue.str body) ∧
      st'.end_ = (pre.length + 1 + body.length) + 2 ∧ st'.cp = st'.end_ := by
  obtain ⟨rs', hput, hcell, _⟩ := putCell_spec st.rs rowPos ((i : Int) + 1) COL_TYPE_STRING
    (RSValue.str body) c hrow hcol htype hlen
  have hget : st.buf.get? st.end_ = some q := by
    rw [hbuf, hend, List.get?_eq_getElem?, List.getElem?_append_right (Nat.le_refl _)]
    simp
  have hdrop : st.buf.drop (st.end_ + 1) = body ++ q :: post := by
    rw [hbuf, hend]
    have : pre ++ q :: (body ++ q :: post) = (pre ++ [q]) ++ (body ++ q :: post) := by simp
    rw [this]
    have hl : pre.length + 1 = (pre ++ [q]).length := by simp
    rw [hl, List.drop_left]
  have hscan : scanFor q (st.buf.drop (st.end_ + 1)) (st.end_ + 1) =
      some (pre.length + 1 + body.length) := by
    rw [hdrop, scanFor_append q post body _ hbody, hend]
  have hset : st.buf.set (pre.length + 1 + body.length) NUL =
      (pre ++ [q]) ++ (body ++ NUL :: post) := by
    rw [hbuf]
    have : pre ++ q :: (body ++ q :: post) = (pre ++ [q]) ++ (body ++ q :: post) := by simp
    rw [this]
    have hl : pre.length + 1 = (pre ++ [q]).length := by simp
    rw [hl, set_middle]
  have hstr : cstringAt (st.buf.set (pre.length + 1 + body.length) NUL) (st.end_ + 1) = body := by
    rw [hset, hend]
    have hl : pre.length + 1 = (pre ++ [q]).length := by simp
    rw [hl]
    exact cstringAt_field _ _ _ hnul
  have hcursors : (if q = '"' then
        (scanFor '"' (st.buf.drop (st.end_ + 1)) (st.end_ + 1)).map fun e => (st.end_ + 1, e)
      else if q = '\'' then
        (scanFor '\'' (st.buf.drop (st.end_ + 1)) (st.end_ + 1)).map fun e => (st.end_ + 1, e)
      else some (st.cp, st.end_)) = some (st.end_ + 1, pre.length + 1 + body.length) := by
    rcases hq with h | h
    · rw [if_pos h, ← h, hscan]; rfl
    · have hne : ¬ q = '"' := by rw [h]; decide
      rw [if_neg hne, if_pos h, ← h, hscan]; rfl
  have h1 : ¬ COL_TYPE_STRING = 1 := by decide
  have h2 : ¬ COL_TYPE_STRING = 2 := by decide
  have h3 : COL_TYPE_STRING = 3 := rfl
  refine ⟨{ rs := rs', buf := st.buf.set (pre.length + 1 + body.length) NUL,
            cp := pre.length + 1 + body.length + 2, end_ := pre.length + 1 + body.length + 2 },
    ?_, hcell, rfl, rfl⟩
  simp only [decodeField, if_neg h1, if_neg h2, if_pos h3, hget, hcursors, hstr]
  unfold resultset_putString
  rw [hput]


/-- C13, at a concrete input: the field `"O'Neil jr"` at offset 4 of the
record; the body holds a space and the other quote character. -/
theorem decodeField_quoted_witness :
    ∃ st', decodeField 1 1 COL_TYPE_STRING quotedStart = some st' ∧
      cellAt st'.rs 1 (((1 : Nat) : Int) + 1) = some (RSValue.str "O'Neil jr".toList) ∧
      st'.end_ = ("-17 ".toList.length + 1 + "O'Neil jr".toList.length) + 2 ∧
      st'.cp = st'.end_ :=
  decodeField_quoted 1 1 quotedStart "-17 ".toList "O'Neil jr".toList (" 2.5\n".toList ++ [NUL])
    '"' freshNameColumn (Or.inl rfl) (by decide) rfl (by decide) (by decide) (by decide)
    (by decide) rfl rfl

/-- C15. INTEGER field decoding: when the field of an INTEGER column at the
cursor is the base-10 text of an integer `n` within the `int` range (with
or without a sign) followed by a space, the decoder completes, stores `n` as
the column's value in the new row and leaves both cursors at the character
immediately after that space. -/
theorem decodeField_integer (rowPos : Int) (i : Nat) (st : DecodeState)
    (pre field post : List Char) (n : Int) (c : RSColumn)
    (hfield : IsIntText field n) (hr : -2147483648 ≤ n ∧ n ≤ 2147483647)
    (hbuf : st.buf = pre ++ (field ++ ' ' :: post)) (hend : st.end_ = pre.length)
    (hcp : st.cp = pre.length)
    (hrow : 1 ≤ rowPos ∧ rowPos ≤ (st.rs.numRows : Int))
    (hcol : columnAt st.rs ((i : Int) + 1) = some c) (htype : c.coltype = COL_TYPE_INT)
    (hlen : c.data.length = st.rs.numRows) :
    ∃ st', decodeField rowPos i COL_TYPE_INT st = some st' ∧
      cellAt st'.rs rowPos ((i : Int) + 1) = some (RSValue.int n) ∧
      st'.end_ = (pre.length + field.length) + 1 ∧ st'.cp = st'.end_ := by
  obtain ⟨hsp, hnul⟩ := intText_no_stop field n hfield
  obtain ⟨rs', hput, hcell, _⟩ := putCell_spec st.rs rowPos ((i : Int) + 1) COL_TYPE_INT
    (RSValue.int n) c hrow hcol htype hlen
  have hscan : scanFor ' ' (st.buf.drop st.end_) st.end_ = some (pre.length + field.length) := by
    rw [hbuf, hend, List.drop_left, scanFor_append ' ' post field _ hsp]
  have hstr : cstringAt (st.buf.set (pre.length + field.length) NUL) st.cp = field := by
    rw [hbuf, hcp, set_middle]
    exact cstringAt_field _ _ _ hnul
  have h1 : COL_TYPE_INT = 1 := rfl
  refine ⟨{ rs := rs', buf := st.buf.set (pre.length + field.length) NUL,
            cp := pre.length + field.length + 1, end_ := pre.length + field.length + 1 },
    ?_, hcell, rfl, rfl⟩
  simp only [decodeField, if_pos h1, hscan, hstr, atoi_intText field n hfield hr]
  unfold resultset_putInt
  rw [hput]

/-- C15, at a concrete input: the field `-17` at the start of a record. -/
theorem decodeField_integer_witness :
    ∃ st', decodeField 1 0 COL_TYPE_INT signedStart = some st' ∧
      cellAt st'.rs 1 (((0 : Nat) : Int) + 1) = some (RSValue.int (-17)) ∧
      st'.end_ = (([] : List Char).length + "-17".toList.length) + 1 ∧ st'.cp = st'.end_ :=
  decodeField_integer 1 0 signedStart [] "-17".toList ("\"O'Neil jr\" 2.5\n".toList ++ [NUL])
    (-17) freshIdColumn
    ⟨"17".toList, by decide, by decide, Or.inr ⟨rfl, by decide⟩⟩
    (by decide) (by decide) rfl rfl (by decide) (by decide) rfl rfl


/-- C14, at the failing input. The record `1.5 7 ` of a table with a REAL column
in front of an INTEGER column: the REAL field ends at the space at offset 3
and the next field starts at offset 4, but the REAL branch scans to the
terminator at offset 7 and leaves both cursors at offset 8, the end of the
buffer. The value 1.5 is stored; the INTEGER column is then decoded from
offset 8, outside the record, and the decoder does not complete. -/
theorem decodeField_real_terminator :
    scanFor ' ' realFirstRecord 0 = some 3 ∧
    realFirstRecord.get? 4 = some '7' ∧
    realFirstRecord.length = 8 ∧
    (decodeField 1 0 COL_TYPE_REAL realFirstStart).map (fun st => (st.cp, st.end_)) =
      some (8, 8) ∧
    (decodeField 1 0 COL_TYPE_REAL realFirstStart).bind (fun st => cellAt st.rs 1 1) =
      some (RSValue.real (mkRat 3 2)) ∧
    (decodeField 1 0 COL_TYPE_REAL realFirstStart).bind (decodeField 1 1 COL_TYPE_INT) =
      none := by
  refine ⟨by decide, by decide, by decide, by decide, by decide, by decide⟩

/-! ## The INTEGER literal on a REAL column -/

/-- An integer of magnitude at most `2 ^ 53` is a `double`. -/
theorem isDoubleValue_intCast (n : Int)
    (h : -9007199254740992 ≤ n ∧ n ≤ 9007199254740992) : IsDoubleValue (n : Rat) :=
  ⟨n, 0, h.1, h.2, Nat.zero_le _, by simp⟩

/-- On the base-10 text of an integer `atof` gives that integer. -/
theorem atof_intText (field : CStr) (n : Int) (h : IsIntText field n) :
    atof field = (n : Rat) := by
  obtain ⟨ds, hne, hdig, hcase⟩ := h
  obtain ⟨c, ds', rfl⟩ := List.exists_cons_of_ne_nil hne
  have hc := hdig c (List.mem_cons_self _ _)
  have hscan := scanDigits_digits (c :: ds') 0 hdig
  simp only [Nat.zero_mul, Nat.zero_add] at hscan
  rcases hcase with ⟨hf | hf, hn⟩ | ⟨hf, hn⟩
  · subst hf
    simp only [atof, dropWhile_isspace_digit c ds' (isDigit_not_space c hc),
      scanSign_digit c ds' hc, hscan]
    rw [hn]
    simp
  · subst hf
    have hs : ('+' :: c :: ds').dropWhile isspace = '+' :: c :: ds' := by
      apply dropWhile_isspace_digit; decide
    have hsign : scanSign ('+' :: c :: ds') = (false, c :: ds') := rfl
    simp only [atof, hs, hsign, hscan]
    rw [hn]
    simp
  · subst hf
    have hs : ('-' :: c :: ds').dropWhile isspace = '-' :: c :: ds' := by
      apply dropWhile_isspace_digit; decide
    have hsign : scanSign ('-' :: c :: ds') = (true, c :: ds') := rfl
    simp only [atof, hs, hsign, hscan, if_true]
    rw [hn]
    simp

/-- C6. Integer-to-real coercion: on a well-formed working table whose WHERE
column has declared type REAL, with a literal of kind INTEGER whose text is
the base-10 text of the integer `n`, `check_where` compares as reals with the
literal widened: it completes, keeps the columns, and leaves exactly the rows
whose real value `v` satisfies `v op (n as a real)`, in order. The literal is
taken with magnitude at most `2 ^ 53`, the range in which every integer is a
`double`: there the widened literal is `n` itself, without rounding. -/
theorem check_where_real_widened (select : SELECT) (rs : ResultSet) (e : EXPR) (n : Int)
    (c : RSColumn) (hwf : rs.WellFormed) (hw : select.«where» = some e)
    (hkind : e.litType = INTEGER_LITERAL) (hlit : IsIntText e.value n)
    (hexact : -9007199254740992 ≤ n ∧ n ≤ 9007199254740992)
    (hop : 0 ≤ e.operator ∧ e.operator ≤ 5)
    (hcol : columnAt rs (resultset_findColumn rs 1 select.table e.column) = some c)
    (htype : c.coltype = COL_TYPE_REAL) :
    atof e.value = (n : Rat) ∧ IsDoubleValue (n : Rat) ∧
    ∃ rs', check_where select rs = some rs' ∧ rs'.headers = rs.headers ∧
      rs'.rows = rs.rows.filter
        (rowHolds (resultset_findColumn rs 1 select.table e.column - 1).toNat
          (realHolds e.operator (n : Rat))) ∧
      rs'.WellFormed := by
  have hval : atof e.value = (n : Rat) := atof_intText e.value n hlit
  have hlen : ∀ c' ∈ rs.columns, c'.data.length = rs.numRows := fun c' h => (hwf c' h).1
  have hgood : ∀ v ∈ c.data, ∃ x, v = RSValue.real x := by
    intro v hv
    have := (hwf c (columnAt_mem hcol)).2 v hv
    rw [htype] at this
    cases v with
    | int x => simp [RSValue.typeCode, COL_TYPE_INT, COL_TYPE_REAL] at this
    | real x => exact ⟨x, rfl⟩
    | str x => simp [RSValue.typeCode, COL_TYPE_REAL, COL_TYPE_STRING] at this
  have hrun := check_where_eq_keepFirst select rs e c (realHolds e.operator (n : Rat))
    (fun v => ∃ x, v = RSValue.real x) hlen hw hcol hgood (by
      intro t i v hcell hv
      obtain ⟨x, rfl⟩ := hv
      have h1 : ¬ (e.litType = 0 ∧ c.coltype = 1) := by
        rw [htype]; simp [COL_TYPE_REAL]
      have h2 : e.litType = 1 ∨ (e.litType = 0 ∧ c.coltype = 2) := Or.inr ⟨hkind, htype⟩
      simp only [whereBody, if_neg h1, if_pos h2]
      rw [← hval]
      exact filter_reals_where_eq t e _ i x hop hcell)
  obtain ⟨h1, h2, h3⟩ := keepFirst_spec rs _ c (realHolds e.operator (n : Rat)) hwf
    (columnAt_get hcol)
  exact ⟨hval, isDoubleValue_intCast n hexact, _, hrun, h1, h2, h3⟩

/-- C6, at a concrete input: `salary >= 42000` on Employees; both rows
survive, the one with salary 42000.5 included. -/
theorem check_where_real_widened_witness :
    (atof whereSalaryGe.value = ((42000 : Int) : Rat) ∧ IsDoubleValue ((42000 : Int) : Rat) ∧
      ∃ rs', check_where selectSalaryGe employees = some rs' ∧
        rs'.headers = employees.headers ∧
        rs'.rows = employees.rows.filter
          (rowHolds (resultset_findColumn employees 1 selectSalaryGe.table whereSalaryGe.column
              - 1).toNat
            (realHolds whereSalaryGe.operator ((42000 : Int) : Rat))) ∧
        rs'.WellFormed) ∧
    check_where selectSalaryGe employees = some employees :=
  ⟨check_where_real_widened selectSalaryGe employees whereSalaryGe 42000 employeesSalary
    employees_wellFormed rfl rfl
    ⟨"42000".toList, by decide, by decide, Or.inl ⟨Or.inl rfl, by decide⟩⟩
    (by decide) (by decide) (by decide) rfl, by decide⟩


/-! ## The pipeline from the filter to the reorderer -/

theorem findColumnFrom_found (table name : CStr) :
    ∀ (cols : List RSColumn) (pos : Int),
      (∃ c ∈ cols, strcasecmp c.tableName table = 0 ∧ strcasecmp c.colName name = 0) →
      pos ≤ findColumnFrom table name cols pos ∧
        findColumnFrom table name cols pos < pos + (cols.length : Int)
  | [], _, h => by
    obtain ⟨c, hc, _⟩ := h
    cases hc
  | c :: cols, pos, h => by
    by_cases hm : strcasecmp c.tableName table = 0 ∧ strcasecmp c.colName name = 0
    · simp only [findColumnFrom, if_pos hm, List.length_cons]
      constructor <;> omega
    · have h' : ∃ c ∈ cols, strcasecmp c.tableName table = 0 ∧ strcasecmp c.colName name = 0 := by
        obtain ⟨c', hc', hmatch⟩ := h
        rcases List.mem_cons.mp hc' with e | e
        · exact absurd (e ▸ hmatch) hm
        · exact ⟨c', e, hmatch⟩
      have ih := findColumnFrom_found table name cols (pos + 1) h'
      simp only [findColumnFrom, if_neg hm, List.length_cons]
      constructor
      · omega
      · push_cast; omega

theorem perm_cons_eraseIdx {α : Type} :
    ∀ (l : List α) (k : Nat) (c : α), l.get? k = some c → l.Perm (c :: l.eraseIdx k)
  | [], _, _, h => by simp at h
  | x :: l, 0, c, h => by
    simp at h
    subst h
    simp
  | x :: l, k + 1, c, h => by
    have h' : l.get? k = some c := by simpa using h
    have ih := perm_cons_eraseIdx l k c h'
    simp only [List.eraseIdx_cons_succ]
    exact (List.Perm.cons x ih).trans (List.Perm.swap c x _)

/-- A move between two live positions completes and permutes the columns. -/
theorem moveColumn_perm (cols : List RSColumn) (n : Nat) (p i : Int)
    (hp : 1 ≤ p ∧ p ≤ (cols.length : Int)) (hi : 1 ≤ i ∧ i ≤ (cols.length : Int)) :
    ∃ cols', resultset_moveColumn { columns := cols, numRows := n } p i =
        some { columns := cols', numRows := n } ∧ cols'.Perm cols := by
  have hlt : (p - 1).toNat < cols.length := by omega
  have hget : cols.get? (p - 1).toNat = some cols[(p - 1).toNat] := by
    rw [List.get?_eq_getElem?, List.getElem?_eq_getElem hlt]
  refine ⟨(cols.eraseIdx (p - 1).toNat).insertIdx (i - 1).toNat cols[(p - 1).toNat], ?_, ?_⟩
  · unfold resultset_moveColumn
    have hc : 1 ≤ p ∧ p ≤ ((ResultSet.mk cols n).numCols : Int) ∧ 1 ≤ i ∧
        i ≤ ((ResultSet.mk cols n).numCols : Int) := by
      simp only [ResultSet.numCols]; omega
    rw [if_pos hc]
    simp only [hget]
  · have hle : (i - 1).toNat ≤ (cols.eraseIdx (p - 1).toNat).length := by
      rw [List.length_eraseIdx, if_pos hlt]; omega
    exact (List.perm_insertIdx _ _ hle).trans (perm_cons_eraseIdx cols _ _ hget).symm

theorem moveColumn_beyond (cols : List RSColumn) (n : Nat) (p i : Int)
    (hi : (cols.length : Int) < i) :
    resultset_moveColumn { columns := cols, numRows := n } p i = none := by
  unfold resultset_moveColumn
  have hc : ¬ (1 ≤ p ∧ p ≤ ((ResultSet.mk cols n).numCols : Int) ∧ 1 ≤ i ∧
      i ≤ ((ResultSet.mk cols n).numCols : Int)) := by
    simp only [ResultSet.numCols]; omega
  rw [if_neg hc]

theorem reorder_col_requests_cons (T : CStr) (cur : COLUMN) (next : List COLUMN) (i : Int)
    (cols : List RSColumn) (n : Nat) (hne : cols ≠ [])
    (hT : ∀ c ∈ cols, c.tableName = T) :
    reorder_col_requests (cur :: next) i { columns := cols, numRows := n } =
      (resultset_findColumn { columns := cols, numRows := n } 1 T cur.name, i, cols.length) ::
        (match resultset_moveColumn { columns := cols, numRows := n }
            (resultset_findColumn { columns := cols, numRows := n } 1 T cur.name) i with
         | none => []
         | some rs' => reorder_col_requests next (i + 1) rs') := by
  cases cols with
  | nil => exact absurd rfl hne
  | cons first tl =>
    have := hT first (List.mem_cons_self _ _)
    simp only [reorder_col_requests, this, ResultSet.numCols]

/-- The loop of `reorder_col` on a table of `m` columns with more entries left
than positions: the moves to the positions up to `m` complete, and the next
entry asks for the target `m + 1`. -/
theorem reorder_col_overrun (T : CStr) (F : List RSColumn) (n : Nat)
    (hT : ∀ c ∈ F, c.tableName = T) :
    ∀ (rest : List COLUMN) (j : Nat) (cols : List RSColumn), cols.Perm F → j ≤ F.length →
      F.length - j < rest.length →
      (∀ r ∈ rest, ∃ c ∈ F, lowerName c.colName = lowerName r.name) →
      reorder_col_loop rest ((j : Int) + 1) { columns := cols, numRows := n } = none ∧
      (reorder_col_requests rest ((j : Int) + 1) { columns := cols, numRows := n }).length =
        F.length - j + 1 ∧
      ∃ p : Int, (reorder_col_requests rest ((j : Int) + 1)
          { columns := cols, numRows := n }).get? (F.length - j) =
          some (p, (F.length : Int) + 1, F.length) ∧ 1 ≤ p ∧ p ≤ (F.length : Int)
  | [], _, _, _, _, hlt, _ => by simp at hlt
  | r :: rest, j, cols, hperm, hj, hlt, hex => by
    obtain ⟨c, hcF, hcr⟩ := hex r (List.mem_cons_self _ _)
    have hc : c ∈ cols := hperm.symm.subset hcF
    have hne : cols ≠ [] := List.ne_nil_of_mem hc
    have hTc : ∀ c' ∈ cols, c'.tableName = T := fun c' h => hT c' (hperm.subset h)
    have hlen : cols.length = F.length := hperm.length_eq
    have hfound := findColumnFrom_found T r.name cols 1 ⟨c, hc,
      by rw [hTc c hc]; exact strcasecmp_self _, (strcasecmp_zero_iff_lower _ _).mpr hcr⟩
    have hfind : resultset_findColumn { columns := cols, numRows := n } 1 T r.name =
        findColumnFrom T r.name cols 1 := findColumn_one _ _ _
    rw [reorder_col_loop_cons T r rest _ cols n hne hTc,
      reorder_col_requests_cons T r rest _ cols n hne hTc, hfind]
    rcases Nat.lt_or_ge j F.length with hjlt | hjge
    · obtain ⟨cols', hmove, hperm'⟩ := moveColumn_perm cols n (findColumnFrom T r.name cols 1)
        ((j : Int) + 1) (by omega) (by omega)
      have hcast : ((j : Int) + 1 + 1) = (((j + 1 : Nat) : Int) + 1) := by push_cast; ring
      have ih := reorder_col_overrun T F n hT rest (j + 1) cols' (hperm'.trans hperm) hjlt
        (by simp only [List.length_cons] at hlt; omega)
        (fun r' hr' => hex r' (List.mem_cons_of_mem _ hr'))
      obtain ⟨ih1, ih2, p, ih3, ih4⟩ := ih
      rw [hmove]
      simp only [Option.some_bind, hcast]
      refine ⟨ih1, ?_, p, ?_, ih4⟩
      · simp only [List.length_cons, ih2]; omega
      · have e : F.length - j = (F.length - (j + 1)) + 1 := by omega
        rw [e, List.get?_cons_succ]
        exact ih3
    · have hjm : j = F.length := by omega
      have hmove : resultset_moveColumn { columns := cols, numRows := n }
          (findColumnFrom T r.name cols 1) ((j : Int) + 1) = none :=
        moveColumn_beyond cols n _ _ (by omega)
      rw [hmove]
      refine ⟨rfl, ?_, findColumnFrom T r.name cols 1, ?_, by omega, by omega⟩
      · simp only [List.length_cons, List.length_nil]; omega
      · have e : F.length - j = 0 := by omega
        rw [e, hjm, hlen]
        rfl

theorem length_dedup_lt {α : Type} [DecidableEq α] (l : List α) (h : ¬ l.Nodup) :
    l.dedup.length < l.length := by
  have hs : l.dedup.Sublist l := List.dedup_sublist l
  rcases Nat.lt_or_ge l.dedup.length l.length with h1 | h1
  · exact h1
  · have := hs.eq_of_length_le h1
    exact absurd (this ▸ List.nodup_dedup l) h

/-- With a repeated name the projection keeps fewer columns than the list has
entries. -/
theorem projected_length_lt (tm : TableMeta) (select : SELECT) (rs : ResultSet)
    (hb : rs.BuiltFrom tm)
    (hcat : (tm.columns.map (fun m => lowerName m.name)).Nodup)
    (hdup : ¬ (select.columns.map (fun r => lowerName r.name)).Nodup) :
    (rs.columns.filter (fun c => requestedName select.columns c.colName)).length <
      select.columns.length := by
  have hsubl : (rs.columns.filter fun c => requestedName select.columns c.colName).Sublist
      rs.columns := List.filter_sublist _
  have hnd : ((rs.columns.filter fun c => requestedName select.columns c.colName).map
      (fun c => lowerName c.colName)).Nodup :=
    List.Nodup.sublist (hsubl.map _) (by rw [builtFrom_lowerNames hb]; exact hcat)
  have hsub : (rs.columns.filter fun c => requestedName select.columns c.colName).map
      (fun c => lowerName c.colName) ⊆ (select.columns.map (fun r => lowerName r.name)).dedup := by
    intro x hx
    simp only [List.mem_map, List.mem_filter] at hx
    obtain ⟨c, ⟨_, hreq⟩, rfl⟩ := hx
    obtain ⟨r, hr, hcr⟩ := (requestedName_iff _ _).mp hreq
    rw [List.mem_dedup, hcr]
    exact List.mem_map_of_mem (fun r => lowerName r.name) hr
  have h1 := (hnd.subperm hsub).length_le
  have h2 := length_dedup_lt _ hdup
  simp only [List.length_map] at h1 h2
  omega

/-- C18. Duplicate names drive the reorderer out of range: for a catalog with
distinct column names and a validated column list of length `k` in which some
name occurs more than once (ignoring case), the projected working table has
`m < k` live columns; `reorder_col` makes `m` moves that complete, and its
request number `m + 1`, for entry `m + 1` of the list, asks the container to
move a live column to the target position `m + 1` while the table has `m`
live columns. (In the container as modelled the request does not complete,
and neither does `reorder_col`.) -/
theorem reorder_col_out_of_range (tm : TableMeta) (select : SELECT) (rs : ResultSet)
    (hb : rs.BuiltFrom tm)
    (hcat : (tm.columns.map (fun m => lowerName m.name)).Nodup)
    (hsub : ∀ r ∈ select.columns, ∃ m ∈ tm.columns, lowerName m.name = lowerName r.name)
    (hdup : ¬ (select.columns.map (fun r => lowerName r.name)).Nodup) :
    ∃ rs1, filter_col tm select rs = some rs1 ∧ rs1.numCols < select.columns.length ∧
      (reorder_col_requests select.columns 1 rs1).length = rs1.numCols + 1 ∧
      (∃ p : Int, (reorder_col_requests select.columns 1 rs1).get? rs1.numCols =
          some (p, (rs1.numCols : Int) + 1, rs1.numCols) ∧ 1 ≤ p ∧ p ≤ (rs1.numCols : Int)) ∧
      reorder_col select rs1 = none := by
  have hlt := projected_length_lt tm select rs hb hcat hdup
  have hT : ∀ c ∈ rs.columns.filter (fun c => requestedName select.columns c.colName),
      c.tableName = tm.name :=
    fun c hc => builtFrom_tableName hb c (List.mem_filter.mp hc).1
  have hex : ∀ r ∈ select.columns,
      ∃ c ∈ rs.columns.filter (fun c => requestedName select.columns c.colName),
        lowerName c.colName = lowerName r.name := by
    intro r hr
    obtain ⟨c, hc, hcr⟩ := builtFrom_exists hb r (hsub r hr)
    exact ⟨c, List.mem_filter.mpr ⟨hc, (requestedName_iff _ _).mpr ⟨r, hr, hcr⟩⟩, hcr⟩
  have h := reorder_col_overrun tm.name _ rs.numRows hT select.columns 0 _ (List.Perm.refl _)
    (Nat.zero_le _) (by omega) hex
  simp only [Nat.cast_zero, zero_add, Nat.sub_zero] at h
  obtain ⟨h1, h2, h3⟩ := h
  exact ⟨_, filter_col_eq tm select rs hb, hlt, h2, h3, h1⟩

/-- C18, at a concrete input: `SELECT id, id` on Employees; one live column,
and the second request asks for target position 2. -/
theorem reorder_col_out_of_range_witness :
    (∃ rs1, filter_col employeesMeta selectIdId employees = some rs1 ∧
      rs1.numCols < selectIdId.columns.length ∧
      (reorder_col_requests selectIdId.columns 1 rs1).length = rs1.numCols + 1 ∧
      (∃ p : Int, (reorder_col_requests selectIdId.columns 1 rs1).get? rs1.numCols =
          some (p, (rs1.numCols : Int) + 1, rs1.numCols) ∧ 1 ≤ p ∧ p ≤ (rs1.numCols : Int)) ∧
      reorder_col selectIdId rs1 = none) ∧
    (filter_col employeesMeta selectIdId employees).map
        (reorder_col_requests selectIdId.columns 1) = some [(1, 1, 1), (1, 2, 1)] :=
  ⟨reorder_col_out_of_range employeesMeta selectIdId employees employees_builtFrom
    (by decide) (by decide) (by decide), by decide⟩


/-! ## A table without records -/

end SimpleSQL
